import Mathlib

/-!
Verification of the sdcadm update orchestrator against its specification.

Shallow embedding of:
* the procedure coordinator `coordinatePlan` (lib/procedures/index.js),
* the planning stages of `SdcAdm.prototype.genUpdatePlan`
  (`checkForConflictingChanges`, `dropNoops`, `createPlan`) and the
  `UpdatePlan` serialization (the core SdcAdm module),
* the manatee update procedure `UpdateManateeV2.prototype.execute`
  (lib/procedures/update-manatee-v2.js): its wait loops and the vasync
  pipeline from `installPrimaryImage` onward, as a step/effect semantics.

JavaScript objects are modelled as Lean structures, JS `undefined` as
`Option`, callback errors as `Except`, and remote-command outcomes as
oracle functions supplied by an environment record.
-/

namespace Sdcadm

/-- An image record (the fields used by planning and coordination). -/
structure Image where
  uuid : String
  name : String
  version : String
  published_at : String
  deriving DecidableEq, Repr

/-- An inventory instance record (one element of `plan.curr`). The source's
`instance` field (the instance identifier) is called `instanceId` here and
its `alias` field is called `aliasName`, because both are reserved words in
Lean. -/
structure Instance where
  type : String
  service : String
  instanceId : String
  zonename : String
  aliasName : String
  version : String
  image : String
  server : String
  hostname : String
  deriving DecidableEq, Repr

/-- A normalized change (after `genUpdatePlan`'s `normalizeChanges`).
`service` holds the service name (`ch.service.name`); `svcImageUuid` models
`ch.service.params.image_uuid`; `instanceRec` models the normalized
`ch.instance` object; `inst` and `insts` are the fields attached by the
coordinator's filters. -/
structure Change where
  type : String
  service : String
  svcImageUuid : Option String := none
  image : Option Image := none
  images : List Image := []
  instanceRec : Option Instance := none
  inst : Option Instance := none
  insts : Option (List Instance) := none
  deriving DecidableEq, Repr

/-- `UpdatePlan` (core SdcAdm module). The constructor always sets `v` to
`UPDATE_PLAN_FORMAT_VER = 1`; `v` is kept as a field because readers of a
serialized plan inspect it. -/
structure UpdatePlan where
  v : Nat := 1
  curr : List Instance
  targ : List Instance
  changes : List Change
  justImages : Bool
  deriving DecidableEq, Repr

/-- The procedure objects `coordinatePlan` can emit, tagged by their class. -/
inductive Proc where
  | downloadImages (images : List Image)
  | updateStatelessServicesV1 (changes : List Change)
  | updateSingleHeadnodeImgapi (changes : List Change)
  | updateUFDSServiceV1 (changes : List Change)
  | updateMorayV2 (changes : List Change)
  | updateSingleHNSapiV1 (changes : List Change)
  | updateManateeV2 (changes : List Change)
  | updateBinderV1 (changes : List Change)
  | updateMahiV1 (changes : List Change)
  deriving DecidableEq, Repr

/-- The `justImages` filter predicate
(`proc.constructor.name === 'DownloadImages'`). -/
def Proc.isDownloadImages : Proc → Bool
  | .downloadImages _ => true
  | _ => false

/-- The `instsFromSvcName` index built at the top of `coordinatePlan`:
instances of `plan.curr` grouped by service name (order preserved). -/
def instsFromSvcName (curr : List Instance) (svcName : String) : List Instance :=
  curr.filter (fun i => i.service == svcName)

/-- What a coordinator filter does with one change: consume it (`handled`,
with `inst`/`insts` attached), log-and-skip it (pushed to neither the
`handle` nor the `remaining` list), or pass it through (`rest`, pushed to
`remaining`). -/
inductive FilterClass where
  | handled (c : Change)
  | skipped
  | rest (c : Change)
  deriving DecidableEq, Repr

/-- The `simpleServices` list of the `updateSimpleServices` filter. -/
def simpleServices : List String :=
  ["adminui", "amon", "amonredis", "assets", "ca", "cloudapi", "cnapi",
   "dhcpd", "fwapi", "napi", "papi", "rabbitmq", "redis", "sdc", "vmapi",
   "workflow", "manta"]

/-- Per-change behaviour of the `updateSimpleServices` filter: an
`update-service` change on a simple service is handled when the service has
no instances (instance-less service update) or exactly one instance on the
headnode; it is logged and skipped (without joining `remaining`) when the
service has a different number of instances or its instance is not on the
headnode. All other changes go to `remaining`. -/
def updateSimpleClassify (curr : List Instance) (currHostname : String)
    (change : Change) : FilterClass :=
  let svcInsts := instsFromSvcName curr change.service
  if change.type == "update-service" && simpleServices.contains change.service then
    match svcInsts with
    | [] => .handled change
    | [i] =>
      if i.hostname != currHostname then .skipped
      else .handled { change with inst := some i }
    | _ => .skipped
  else .rest change

/-- Per-change behaviour of the single-headnode-service filters
(`updateSingleHeadnodeImgapi`, `updateSingleHeadnodeUFDS`,
`updateSingleHeadnodeSapi`, `updateBinder`, `updateMahi`): they differ only
in the service name matched. -/
def singleHNClassify (svcName : String) (curr : List Instance)
    (currHostname : String) (change : Change) : FilterClass :=
  let svcInsts := instsFromSvcName curr change.service
  if change.type == "update-service" && change.service == svcName then
    match svcInsts with
    | [i] =>
      if i.hostname != currHostname then .skipped
      else .handled { change with inst := some i }
    | _ => .skipped
  else .rest change

/-- Per-change behaviour of the HA-capable filters (`updateMorays`,
`updateManatees`): a matching change is always handled, wherever its
instances run; with more than one instance they are attached as `insts`,
otherwise the single (or absent) instance is attached as `inst`. -/
def haClassify (svcName : String) (curr : List Instance)
    (change : Change) : FilterClass :=
  if change.type == "update-service" && change.service == svcName then
    let svcInsts := instsFromSvcName curr change.service
    if svcInsts.length > 1 then .handled { change with insts := some svcInsts }
    else .handled { change with inst := svcInsts.head? }
  else .rest change

/-- The coordinator's mutable state: the `changes` list still to be consumed
and the procedure list built so far. -/
structure CoordState where
  changes : List Change
  procs : List Proc
  deriving DecidableEq, Repr

/-- One coordinator filter: partition `changes` via `classify`; when at
least one change was handled, replace `changes` by `remaining` (so skipped
changes drop out of the list) and append the constructed procedure.
When nothing was handled, the state is left unchanged. -/
def applyFilter (classify : Change → FilterClass) (mk : List Change → Proc)
    (st : CoordState) : CoordState :=
  let handle := st.changes.filterMap (fun c =>
    match classify c with | .handled c' => some c' | _ => none)
  let remaining := st.changes.filterMap (fun c =>
    match classify c with | .rest c' => some c' | _ => none)
  if handle.isEmpty then st
  else { changes := remaining, procs := st.procs ++ [mk handle] }

/-- JS object-literal insertion semantics for `imageFromUuid[img.uuid] = img`:
key order is first assignment, value is the last assignment. -/
def upsertImage (m : List (String × Image)) (img : Image) :
    List (String × Image) :=
  if m.any (fun p => p.1 == img.uuid) then
    m.map (fun p => if p.1 == img.uuid then (img.uuid, img) else p)
  else m ++ [(img.uuid, img)]

/-- The `coordImages` stage: collect the distinct images of the plan's
changes; those the local image store does not already have (the
`ResourceNotFound` answer of `imgapi.getImage`, given here by the oracle
`imgapiHasImage`) become one `DownloadImages` procedure. -/
def coordImagesProcs (imgapiHasImage : String → Bool)
    (changes : List Change) : List Proc :=
  let imageFromUuid := changes.foldl (fun m c =>
    match c.image with
    | some img => upsertImage m img
    | none => m) []
  let images := imageFromUuid.map (fun p => p.2)
  let imagesToRetrieve := images.filter (fun img => !imgapiHasImage img.uuid)
  if imagesToRetrieve.isEmpty then [] else [.downloadImages imagesToRetrieve]

/-- `coordinatePlan` (lib/procedures/index.js): run the fixed filter
pipeline over `plan.changes`; if changes remain at the end, fail with the
`UpdateError` that enumerates them (here: the remaining list itself);
otherwise return the procedure list, restricted to the `DownloadImages`
procedure when `plan.justImages`. -/
def coordinatePlan (imgapiHasImage : String → Bool) (currHostname : String)
    (plan : UpdatePlan) : Except (List Change) (List Proc) :=
  let st0 : CoordState :=
    { changes := plan.changes, procs := coordImagesProcs imgapiHasImage plan.changes }
  let st1 := applyFilter (updateSimpleClassify plan.curr currHostname)
    Proc.updateStatelessServicesV1 st0
  let st2 := applyFilter (singleHNClassify "imgapi" plan.curr currHostname)
    Proc.updateSingleHeadnodeImgapi st1
  let st3 := applyFilter (singleHNClassify "ufds" plan.curr currHostname)
    Proc.updateUFDSServiceV1 st2
  let st4 := applyFilter (haClassify "moray" plan.curr) Proc.updateMorayV2 st3
  let st5 := applyFilter (singleHNClassify "sapi" plan.curr currHostname)
    Proc.updateSingleHNSapiV1 st4
  let st6 := applyFilter (haClassify "manatee" plan.curr) Proc.updateManateeV2 st5
  let st7 := applyFilter (singleHNClassify "binder" plan.curr currHostname)
    Proc.updateBinderV1 st6
  let st8 := applyFilter (singleHNClassify "mahi" plan.curr currHostname)
    Proc.updateMahiV1 st7
  if st8.changes.isEmpty then
    .ok (if plan.justImages then st8.procs.filter Proc.isDownloadImages
         else st8.procs)
  else
    .error st8.changes

/-! Concrete data for the coordinator claims. -/

/-- A cnapi image. -/
def cnapiImg : Image :=
  { uuid := "img-cnapi-2", name := "cnapi", version := "2.0.0",
    published_at := "2014-06-01T00:00:00Z" }

/-- A vmapi image. -/
def vmapiImg : Image :=
  { uuid := "img-vmapi-2", name := "vmapi", version := "2.0.0",
    published_at := "2014-06-02T00:00:00Z" }

/-- The single cnapi instance, on the headnode. -/
def cnapiInst : Instance :=
  { type := "vm", service := "cnapi", instanceId := "cn0-uuid",
    zonename := "cn0-uuid", aliasName := "cnapi0", version := "1.0.0",
    image := "img-cnapi-1", server := "srv-hn", hostname := "headnode" }

/-- First of two vmapi instances. -/
def vmapiInst0 : Instance :=
  { type := "vm", service := "vmapi", instanceId := "vm0-uuid",
    zonename := "vm0-uuid", aliasName := "vmapi0", version := "1.0.0",
    image := "img-vmapi-1", server := "srv-hn", hostname := "headnode" }

/-- Second of two vmapi instances. -/
def vmapiInst1 : Instance :=
  { type := "vm", service := "vmapi", instanceId := "vm1-uuid",
    zonename := "vm1-uuid", aliasName := "vmapi1", version := "1.0.0",
    image := "img-vmapi-1", server := "srv-cn1", hostname := "cn1" }

/-- An `update-service cnapi` change. -/
def cnapiChange : Change :=
  { type := "update-service", service := "cnapi", image := some cnapiImg }

/-- An `update-service vmapi` change. -/
def vmapiChange : Change :=
  { type := "update-service", service := "vmapi", image := some vmapiImg }

/-- A plan whose vmapi service has two instances: the `updateSimpleServices`
filter skips the vmapi change (`not 1 inst`) while handling the cnapi one. -/
def planTwoVmapi : UpdatePlan :=
  { curr := [cnapiInst, vmapiInst0, vmapiInst1],
    targ := [cnapiInst, vmapiInst0, vmapiInst1],
    changes := [cnapiChange, vmapiChange],
    justImages := false }

/-- C1: for every plan given to `coordinatePlan`, every change not consumed
by a filter — including one skipped because its service does not have
exactly one instance — remains in the remaining-changes list and is
enumerated in the final `UpdateError`; success requires the remaining list
to be empty. The code violates this: when a filter handles at least one
change, `changes = remaining` discards the skipped changes, which are in
neither `handle` nor `remaining`. On `planTwoVmapi` the vmapi change (two
instances, skipped) silently disappears and `coordinatePlan` succeeds with
a procedure list that does not mention it, contradicting the function's own
doc comment ("This will error out if the plan cannot be handled"). -/
theorem claim_c1_skipped_change_silently_dropped :
    coordinatePlan (fun _ => true) "headnode" planTwoVmapi =
      .ok [Proc.updateStatelessServicesV1
            [{ type := "update-service", service := "cnapi",
               image := some cnapiImg, inst := some cnapiInst }]] := by
  rfl

/-- C9: when `plan.justImages` is set, a successful `coordinatePlan` returns
only `DownloadImages` procedures: every other produced procedure is
filtered out. -/
theorem claim_c9_justImages_keeps_only_downloads
    (imgapiHasImage : String → Bool) (currHostname : String)
    (plan : UpdatePlan) (ps : List Proc)
    (hji : plan.justImages = true)
    (h : coordinatePlan imgapiHasImage currHostname plan = .ok ps) :
    ∀ pr ∈ ps, pr.isDownloadImages = true := by
  intro pr hpr
  simp only [coordinatePlan, hji, if_true] at h
  split at h
  · simp only [Except.ok.injEq] at h
    subst h
    exact (List.mem_filter.mp hpr).2
  · exact absurd h (by simp)

/-- A `justImages` plan: one cnapi change whose image is not in the local
image store, and one cnapi instance on the headnode. -/
def planJustImages : UpdatePlan :=
  { curr := [cnapiInst], targ := [cnapiInst],
    changes := [cnapiChange], justImages := true }

/-- Witness for C9 at a concrete plan: the successful result is the lone
`DownloadImages` procedure, and it satisfies the predicate. -/
theorem claim_c9_justImages_keeps_only_downloads_witness :
    (Proc.downloadImages [cnapiImg]).isDownloadImages = true :=
  claim_c9_justImages_keeps_only_downloads (fun _ => false) "headnode"
    planJustImages [Proc.downloadImages [cnapiImg]] rfl rfl
    (Proc.downloadImages [cnapiImg]) (by simp)

/-! Conflict detection: `checkForConflictingChanges` in `genUpdatePlan`. -/

/-- `s.split(sep)` for a one-character separator, on the character list
(`String.splitOn` itself is opaque to kernel reduction, so the split is
spelled out). -/
def splitOnCharAux (sep : Char) : List Char → List (List Char)
  | [] => [[]]
  | c :: rest =>
    if c = sep then [] :: splitOnCharAux sep rest
    else
      match splitOnCharAux sep rest with
      | [] => [[c]]
      | g :: gs => (c :: g) :: gs

/-- `ch.type.split('-')[1]`: the target kind of a change type, e.g.
`"update-service" ↦ some "service"`; `none` models the JS `undefined` for a
type without a hyphen (`"create"`, `"delete"`). -/
def typeTarg (c : Change) : Option String :=
  ((splitOnCharAux '-' c.type.toList).map (fun g => String.mk g)).get? 1

/-- The instance identifier read by the conflict check
(`ch.instance.instance`). -/
def chInstId (c : Change) : Option String :=
  c.instanceRec.map (fun i => i.instanceId)

/-- The failure outcomes of `checkForConflictingChanges`: the three
`UpdateError` conflicts carrying the two conflicting changes (the source
formats them into the message), plus the two ways the source would crash
(`assert.equal(typeTarg, 'instance')` on a type with no
`-service`/`-instance` suffix; reading `ch.instance.instance` when the
change has no normalized instance object). -/
inductive Conflict where
  | sameService (a b : Change)
  | sameInstance (a b : Change)
  | svcAndInstance (a b : Change)
  | badType (a : Change)
  | noInstance (a : Change)
  deriving DecidableEq, Repr

/-- First loop of `checkForConflictingChanges`: build `changeFromSvc` and
`changeFromInst` maps, failing on a second change for the same service or
for the same instance. On success it returns the completed `changeFromSvc`
map. -/
def conflictLoop1 : List Change → List (String × Change) →
    List (String × Change) → Except Conflict (List (String × Change))
  | [], sm, _ => .ok sm
  | c :: rest, sm, im =>
    if typeTarg c = some "service" then
      match sm.lookup c.service with
      | some prior => .error (.sameService c prior)
      | none => conflictLoop1 rest (sm ++ [(c.service, c)]) im
    else if typeTarg c = some "instance" then
      match chInstId c with
      | none => .error (.noInstance c)
      | some iid =>
        match im.lookup iid with
        | some prior => .error (.sameInstance c prior)
        | none => conflictLoop1 rest sm (im ++ [(iid, c)])
    else .error (.badType c)

/-- Second loop of `checkForConflictingChanges`: an instance-level change
must not share its service with any service-level change. -/
def conflictLoop2 (sm : List (String × Change)) : List Change → Except Conflict Unit
  | [] => .ok ()
  | c :: rest =>
    if typeTarg c = some "instance" then
      match sm.lookup c.service with
      | some prior => .error (.svcAndInstance c prior)
      | none => conflictLoop2 sm rest
    else conflictLoop2 sm rest

/-- `checkForConflictingChanges` (genUpdatePlan). -/
def checkForConflictingChanges (changes : List Change) : Except Conflict Unit :=
  match conflictLoop1 changes [] [] with
  | .error e => .error e
  | .ok sm => conflictLoop2 sm changes

/-- The `changeFromSvc` map a successful first loop produces: one entry per
service-level change, in list order. -/
def svcEntries (l : List Change) : List (String × Change) :=
  l.filterMap (fun c =>
    if typeTarg c = some "service" then some (c.service, c) else none)

theorem lookup_append_none {β : Type} (k : String) (l₁ l₂ : List (String × β)) :
    List.lookup k (l₁ ++ l₂) = none ↔
      (List.lookup k l₁ = none ∧ List.lookup k l₂ = none) := by
  induction l₁ with
  | nil => simp
  | cons p rest ih =>
    rcases p with ⟨k', v⟩
    by_cases h : k = k'
    · subst h
      simp [List.lookup_cons]
    · simp [List.lookup_cons, beq_false_of_ne h, ih]

theorem lookup_eq_none_iff {β : Type} (k : String) (l : List (String × β)) :
    List.lookup k l = none ↔ ∀ p ∈ l, p.1 ≠ k := by
  induction l with
  | nil => simp
  | cons p rest ih =>
    rcases p with ⟨k', v⟩
    by_cases h : k = k'
    · subst h
      simp [List.lookup_cons]
    · simp [List.lookup_cons, beq_false_of_ne h, ih, Ne.symm h]

theorem svcEntries_lookup_none (s : String) (l : List Change) :
    List.lookup s (svcEntries l) = none ↔
      ∀ b ∈ l, typeTarg b = some "service" → b.service ≠ s := by
  induction l with
  | nil => simp [svcEntries]
  | cons c rest ih =>
    simp only [List.forall_mem_cons]
    by_cases hc : typeTarg c = some "service"
    · have hunf : svcEntries (c :: rest) = (c.service, c) :: svcEntries rest := by
        simp [svcEntries, hc]
      rw [hunf]
      by_cases hs : s = c.service
      · subst hs
        constructor
        · intro h
          rw [List.lookup_cons] at h
          simp at h
        · rintro ⟨h1, _⟩
          exact absurd rfl (h1 hc)
      · simp only [List.lookup_cons, beq_false_of_ne hs]
        rw [ih]
        constructor
        · intro h
          exact ⟨fun _ he => hs he.symm, h⟩
        · rintro ⟨_, h⟩
          exact h
    · have hunf : svcEntries (c :: rest) = svcEntries rest := by
        simp [svcEntries, hc]
      rw [hunf, ih]
      constructor
      · intro h
        exact ⟨fun hsvc => absurd hsvc hc, h⟩
      · rintro ⟨_, h⟩
        exact h

theorem conflictLoop1_ok_val :
    ∀ (l : List Change) (sm im sm' : List (String × Change)),
      conflictLoop1 l sm im = .ok sm' → sm' = sm ++ svcEntries l := by
  intro l
  induction l with
  | nil =>
    intro sm im sm' h
    simp [conflictLoop1] at h
    simp [svcEntries, h]
  | cons c rest ih =>
    intro sm im sm' h
    by_cases hc : typeTarg c = some "service"
    · rw [conflictLoop1, if_pos hc] at h
      cases hsm : List.lookup c.service sm with
      | some prior => rw [hsm] at h; exact absurd h (by simp)
      | none =>
        rw [hsm] at h
        have := ih _ _ _ h
        simp [this, svcEntries, hc]
    · rw [conflictLoop1, if_neg hc] at h
      by_cases hi : typeTarg c = some "instance"
      · rw [if_pos hi] at h
        cases hiid : chInstId c with
        | none =>
          exact absurd h (by simp [hiid])
        | some iid =>
          cases him : List.lookup iid im with
          | some prior =>
            exact absurd h (by simp [hiid, him])
          | none =>
            simp only [hiid, him] at h
            have := ih _ _ _ h
            simp [this, svcEntries, hc]
      · rw [if_neg hi] at h
        exact absurd h (by simp)

theorem conflictLoop1_ok_iff :
    ∀ (l : List Change) (sm im : List (String × Change)),
      (∀ c ∈ l, typeTarg c = some "service" ∨
        (typeTarg c = some "instance" ∧ chInstId c ≠ none)) →
      ((∃ sm', conflictLoop1 l sm im = .ok sm') ↔
        ((∀ c ∈ l, typeTarg c = some "service" →
            List.lookup c.service sm = none)
          ∧ (∀ c ∈ l, ∀ iid, chInstId c = some iid →
              typeTarg c = some "instance" → List.lookup iid im = none)
          ∧ l.Pairwise (fun a b => typeTarg a = some "service" →
              typeTarg b = some "service" → a.service ≠ b.service)
          ∧ l.Pairwise (fun a b => typeTarg a = some "instance" →
              typeTarg b = some "instance" → chInstId a ≠ chInstId b))) := by
  intro l
  induction l with
  | nil => intro sm im _; simp [conflictLoop1]
  | cons c rest ih =>
    intro sm im hwf
    have hwfr : ∀ c' ∈ rest, typeTarg c' = some "service" ∨
        (typeTarg c' = some "instance" ∧ chInstId c' ≠ none) :=
      fun c' hc' => hwf c' (List.mem_cons_of_mem _ hc')
    rcases hwf c (List.mem_cons_self _ _) with hc | ⟨hc, hiid0⟩
    · -- service-level head
      rw [conflictLoop1, if_pos hc]
      cases hsm : List.lookup c.service sm with
      | some prior =>
        constructor
        · rintro ⟨sm', hsm'⟩
          exact absurd hsm' (by simp)
        · rintro ⟨hA, _, _, _⟩
          exact absurd (hA c (List.mem_cons_self _ _) hc) (by simp [hsm])
      | none =>
        rw [ih (sm ++ [(c.service, c)]) im hwfr]
        constructor
        · rintro ⟨hA, hB, hC, hD⟩
          refine ⟨?_, ?_, ?_, ?_⟩
          · intro x hx hxs
            rcases List.mem_cons.mp hx with rfl | hx'
            · exact hsm
            · exact ((lookup_append_none _ _ _).mp (hA x hx' hxs)).1
          · intro x hx iid hiid hxi
            rcases List.mem_cons.mp hx with rfl | hx'
            · exact absurd (hc.symm.trans hxi) (by simp)
            · exact hB x hx' iid hiid hxi
          · refine List.pairwise_cons.mpr ⟨?_, hC⟩
            intro b hb hcs hbs he
            have h2 := ((lookup_append_none _ _ _).mp (hA b hb hbs)).2
            rw [← he] at h2
            simp [List.lookup_cons] at h2
          · refine List.pairwise_cons.mpr ⟨?_, hD⟩
            intro b hb hci _
            exact absurd (hc.symm.trans hci) (by simp)
        · rintro ⟨hA, hB, hC, hD⟩
          refine ⟨?_, ?_, (List.pairwise_cons.mp hC).2,
            (List.pairwise_cons.mp hD).2⟩
          · intro x hx hxs
            refine (lookup_append_none _ _ _).mpr
              ⟨hA x (List.mem_cons_of_mem _ hx) hxs, ?_⟩
            have hne : c.service ≠ x.service :=
              (List.pairwise_cons.mp hC).1 x hx hc hxs
            simp [List.lookup_cons, beq_false_of_ne (Ne.symm hne)]
          · intro x hx iid hiid hxi
            exact hB x (List.mem_cons_of_mem _ hx) iid hiid hxi
    · -- instance-level head
      obtain ⟨iid, hiid⟩ := Option.ne_none_iff_exists'.mp hiid0
      have hcs : ¬ typeTarg c = some "service" := by simp [hc]
      rw [conflictLoop1, if_neg hcs, if_pos hc]
      simp only [hiid]
      cases him : List.lookup iid im with
      | some prior =>
        simp only [him]
        constructor
        · rintro ⟨sm', hsm'⟩
          exact absurd hsm' (by simp)
        · rintro ⟨_, hB, _, _⟩
          exact absurd (hB c (List.mem_cons_self _ _) iid hiid hc)
            (by simp [him])
      | none =>
        simp only [him]
        rw [ih sm (im ++ [(iid, c)]) hwfr]
        constructor
        · rintro ⟨hA, hB, hC, hD⟩
          refine ⟨?_, ?_, ?_, ?_⟩
          · intro x hx hxs
            rcases List.mem_cons.mp hx with rfl | hx'
            · exact absurd (hc.symm.trans hxs) (by simp)
            · exact hA x hx' hxs
          · intro x hx iid' hiid' hxi
            rcases List.mem_cons.mp hx with rfl | hx'
            · rw [hiid] at hiid'
              cases hiid'
              exact him
            · exact ((lookup_append_none _ _ _).mp
                (hB x hx' iid' hiid' hxi)).1
          · refine List.pairwise_cons.mpr ⟨?_, hC⟩
            intro b hb hcsvc _
            exact absurd (hc.symm.trans hcsvc) (by simp)
          · refine List.pairwise_cons.mpr ⟨?_, hD⟩
            intro b hb _ hbi he
            rcases hwfr b hb with hbsvc | ⟨_, hbid⟩
            · exact absurd (hbi.symm.trans hbsvc) (by simp)
            · obtain ⟨iid', hiid'⟩ := Option.ne_none_iff_exists'.mp hbid
              have h2 := ((lookup_append_none _ _ _).mp
                (hB b hb iid' hiid' hbi)).2
              rw [hiid, hiid'] at he
              cases he
              simp [List.lookup_cons] at h2
        · rintro ⟨hA, hB, hC, hD⟩
          refine ⟨?_, ?_, (List.pairwise_cons.mp hC).2,
            (List.pairwise_cons.mp hD).2⟩
          · intro x hx hxs
            exact hA x (List.mem_cons_of_mem _ hx) hxs
          · intro x hx iid' hiid' hxi
            refine (lookup_append_none _ _ _).mpr
              ⟨hB x (List.mem_cons_of_mem _ hx) iid' hiid' hxi, ?_⟩
            have hne : chInstId c ≠ chInstId x :=
              (List.pairwise_cons.mp hD).1 x hx hc hxi
            rw [hiid, hiid'] at hne
            have : iid ≠ iid' := fun he => hne (by rw [he])
            simp [List.lookup_cons, beq_false_of_ne (Ne.symm this)]

theorem conflictLoop2_ok_iff :
    ∀ (l : List Change) (sm : List (String × Change)),
      conflictLoop2 sm l = .ok () ↔
        ∀ c ∈ l, typeTarg c = some "instance" →
          List.lookup c.service sm = none := by
  intro l
  induction l with
  | nil => intro sm; simp [conflictLoop2]
  | cons c rest ih =>
    intro sm
    by_cases hc : typeTarg c = some "instance"
    · rw [conflictLoop2, if_pos hc]
      cases hsm : List.lookup c.service sm with
      | some prior =>
        simp only [List.forall_mem_cons]
        constructor
        · intro h; exact absurd h (by simp)
        · rintro ⟨h1, _⟩
          exact absurd (h1 hc) (by simp [hsm])
      | none =>
        rw [ih sm]
        simp only [List.forall_mem_cons]
        exact ⟨fun h => ⟨fun _ => hsm, h⟩, fun h => h.2⟩
    · rw [conflictLoop2, if_neg hc]
      rw [ih sm]
      simp only [List.forall_mem_cons]
      exact ⟨fun h => ⟨fun hci => absurd hci hc, h⟩, fun h => h.2⟩

/-- C6: `genUpdatePlan` fails with a conflict `UpdateError` exactly when the
normalized change list contains two service-level changes on the same
service, two instance-level changes on the same instance, or a
service-level and an instance-level change on the same service; with no
such pair, conflict checking passes. (The hypothesis restricts to
well-formed normalized changes: each has a `-service` or `-instance` type
suffix, and instance-level ones carry their normalized instance — anything
else would crash the source on `assert.equal` or a property read, which the
embedding models as the `badType`/`noInstance` outcomes.) -/
theorem claim_c6_conflicting_changes (changes : List Change)
    (hwf : ∀ c ∈ changes, typeTarg c = some "service" ∨
      (typeTarg c = some "instance" ∧ chInstId c ≠ none)) :
    checkForConflictingChanges changes = .ok () ↔
      (changes.Pairwise (fun a b => typeTarg a = some "service" →
          typeTarg b = some "service" → a.service ≠ b.service)
        ∧ changes.Pairwise (fun a b => typeTarg a = some "instance" →
            typeTarg b = some "instance" → chInstId a ≠ chInstId b)
        ∧ ∀ a ∈ changes, ∀ b ∈ changes, typeTarg a = some "service" →
            typeTarg b = some "instance" → a.service ≠ b.service) := by
  unfold checkForConflictingChanges
  cases h1 : conflictLoop1 changes [] [] with
  | error e =>
    constructor
    · intro h; exact absurd h (by simp)
    · rintro ⟨hC, hD, hX⟩
      have : ∃ sm', conflictLoop1 changes [] [] = .ok sm' := by
        rw [conflictLoop1_ok_iff changes [] [] hwf]
        exact ⟨by simp, by simp, hC, hD⟩
      rw [h1] at this
      exact absurd this (by simp)
  | ok sm =>
    have hsm : sm = svcEntries changes := by
      have := conflictLoop1_ok_val changes [] [] sm h1
      simpa using this
    have hC : changes.Pairwise (fun a b => typeTarg a = some "service" →
        typeTarg b = some "service" → a.service ≠ b.service) ∧
        changes.Pairwise (fun a b => typeTarg a = some "instance" →
          typeTarg b = some "instance" → chInstId a ≠ chInstId b) := by
      have := (conflictLoop1_ok_iff changes [] [] hwf).mp ⟨sm, h1⟩
      exact ⟨this.2.2.1, this.2.2.2⟩
    rw [conflictLoop2_ok_iff changes sm]
    constructor
    · intro h
      refine ⟨hC.1, hC.2, ?_⟩
      intro a ha b hb has hbi he
      have := h b hb hbi
      rw [hsm, svcEntries_lookup_none] at this
      exact this a ha has he
    · rintro ⟨_, _, hX⟩
      intro c hcm hci
      rw [hsm, svcEntries_lookup_none]
      intro b hb hbs he
      exact hX b hb c hcm hbs hci he

/-- Witness data for C6: an `update-service imgapi` change. -/
def imgapiSvcChange : Change :=
  { type := "update-service", service := "imgapi" }

/-- Witness data for C6: an `update-instance` change on a vmapi instance. -/
def vmapiInstChange : Change :=
  { type := "update-instance", service := "vmapi",
    instanceRec := some vmapiInst0 }

/-- Witness for C6 at a concrete conflict-free change list. -/
theorem claim_c6_conflicting_changes_witness :
    checkForConflictingChanges [imgapiSvcChange, vmapiInstChange] = .ok () :=
  (claim_c6_conflicting_changes [imgapiSvcChange, vmapiInstChange]
    (by decide)).mpr (by decide)

/-! No-op dropping: `dropNoops` in `genUpdatePlan`. -/

/-- First-occurrence dedup with an explicit seen-set: JS object key
insertion semantics for `currImgUuids[inst.image] = true` followed by
`Object.keys`. -/
def dedupFirstAux (seen : List String) : List String → List String
  | [] => []
  | x :: rest =>
    if x ∈ seen then dedupFirstAux seen rest
    else x :: dedupFirstAux (seen ++ [x]) rest

/-- `Object.keys` of the object built by assigning each list element. -/
def dedupFirst (l : List String) : List String := dedupFirstAux [] l

theorem mem_dedupFirstAux (y : String) :
    ∀ (l seen : List String), y ∈ dedupFirstAux seen l ↔ (y ∈ l ∧ y ∉ seen) := by
  intro l
  induction l with
  | nil => intro seen; simp [dedupFirstAux]
  | cons x rest ih =>
    intro seen
    by_cases hx : x ∈ seen
    · rw [dedupFirstAux, if_pos hx, ih seen]
      constructor
      · rintro ⟨h1, h2⟩
        exact ⟨List.mem_cons_of_mem _ h1, h2⟩
      · rintro ⟨h1, h2⟩
        rcases List.mem_cons.mp h1 with rfl | h1'
        · exact absurd hx h2
        · exact ⟨h1', h2⟩
    · rw [dedupFirstAux, if_neg hx]
      rw [List.mem_cons, ih (seen ++ [x]), List.mem_cons]
      constructor
      · rintro (rfl | ⟨h1, h2⟩)
        · exact ⟨Or.inl rfl, hx⟩
        · exact ⟨Or.inr h1, fun hc => h2 (List.mem_append_left _ hc)⟩
      · rintro ⟨h1 | h1, h2⟩
        · subst h1; exact Or.inl rfl
        · by_cases hy : y = x
          · subst hy; exact Or.inl rfl
          · refine Or.inr ⟨h1, fun hc => ?_⟩
            rcases List.mem_append.mp hc with hc' | hc'
            · exact h2 hc'
            · exact hy (by simpa using hc')

theorem mem_dedupFirst (y : String) (l : List String) :
    y ∈ dedupFirst l ↔ y ∈ l := by
  rw [dedupFirst, mem_dedupFirstAux]
  simp

theorem nodup_dedupFirstAux :
    ∀ (l seen : List String), (dedupFirstAux seen l).Nodup := by
  intro l
  induction l with
  | nil => intro seen; simp [dedupFirstAux]
  | cons x rest ih =>
    intro seen
    by_cases hx : x ∈ seen
    · rw [dedupFirstAux, if_pos hx]
      exact ih seen
    · rw [dedupFirstAux, if_neg hx]
      refine List.nodup_cons.mpr ⟨fun hmem => ?_, ih _⟩
      rw [mem_dedupFirstAux] at hmem
      exact hmem.2 (by simp)

/-- The current image uuids of the service a change targets
(`insts.forEach` in `dropNoops`, before dedup). -/
def svcImgs (insts : List Instance) (ch : Change) : List String :=
  (insts.filter (fun i => i.service == ch.service)).map (fun i => i.image)

/-- The `dropNoops` filter callback for one change: `some true` keeps,
`some false` drops, `none` models the
`assert.ok(ch.service.params.image_uuid)` crash (no instances and no
default image on the service). -/
def keepChange (forceSameImage : Bool) (insts : List Instance)
    (ch : Change) : Option Bool :=
  if ch.type == "update-service" || ch.type == "update-instance" then
    if ch.images.isEmpty then some false
    else if forceSameImage then some true
    else
      match dedupFirst (svcImgs insts ch) with
      | [] =>
        match ch.svcImageUuid with
        | none => none
        | some u =>
          if (ch.images.filter (fun img => img.uuid != u)).isEmpty then
            some false
          else some true
      | [u] =>
        if (ch.images.filter (fun img => img.uuid != u)).isEmpty then
          some false
        else some true
      | _ => some true
  else some true

/-- `dropNoops` (genUpdatePlan): `changes.filter(...)`, with `none`
propagating the assertion crash. -/
def dropNoops (forceSameImage : Bool) (insts : List Instance) :
    List Change → Option (List Change)
  | [] => some []
  | c :: rest =>
    match keepChange forceSameImage insts c with
    | none => none
    | some true => (dropNoops forceSameImage insts rest).map (fun l => c :: l)
    | some false => dropNoops forceSameImage insts rest

/-- The retention predicate asserted by claim C7, following the claim's
words: an update change with an empty candidate set is removed; unless
`forceSameImage`, an `update-service` change whose service's instances all
run the single image that is the only remaining candidate is removed; all
other changes are retained. -/
def claimC7Keep (forceSameImage : Bool) (insts : List Instance)
    (ch : Change) : Bool :=
  if (ch.type == "update-service" || ch.type == "update-instance")
      && ch.images.isEmpty then
    false
  else if ch.type == "update-service" && !forceSameImage then
    match dedupFirst (svcImgs insts ch) with
    | [u] => !(ch.images.filter (fun img => img.uuid != u)).isEmpty
    | _ => true
  else true

/-- The characterization of what the code's `dropNoops` actually retains:
an `update-service` **or `update-instance`** change is removed when its
candidate set is empty, or when (without `forceSameImage`) all candidate
images equal the single image its service currently runs — where, for a
service with no instances, the service's default `params.image_uuid`
stands in for the current image. -/
def RetainedC7 (force : Bool) (insts : List Instance) (ch : Change) : Prop :=
  (ch.type = "update-service" ∨ ch.type = "update-instance") →
    (ch.images ≠ [] ∧
      (force = true ∨
        ¬ ∃ u, (∀ img ∈ ch.images, img.uuid = u) ∧
          (((∃ i ∈ insts, i.service = ch.service) ∧
              (∀ i ∈ insts, i.service = ch.service → i.image = u)) ∨
            ((∀ i ∈ insts, i.service ≠ ch.service) ∧
              ch.svcImageUuid = some u))))

theorem mem_svcImgs (x : String) (insts : List Instance) (ch : Change) :
    x ∈ svcImgs insts ch ↔
      ∃ i ∈ insts, i.service = ch.service ∧ i.image = x := by
  simp [svcImgs, List.mem_map, List.mem_filter, beq_iff_eq]
  constructor
  · rintro ⟨i, ⟨h1, h2⟩, h3⟩
    exact ⟨i, h1, h2, h3⟩
  · rintro ⟨i, h1, h2, h3⟩
    exact ⟨i, ⟨h1, h2⟩, h3⟩

theorem sansCurr_empty_iff (imgs : List Image) (u : String) :
    (imgs.filter (fun img => img.uuid != u)).isEmpty = true ↔
      ∀ img ∈ imgs, img.uuid = u := by
  rw [List.isEmpty_iff, List.filter_eq_nil_iff]
  simp

theorem keepChange_iff (force : Bool) (insts : List Instance) (ch : Change)
    (b : Bool) (h : keepChange force insts ch = some b) :
    b = true ↔ RetainedC7 force insts ch := by
  unfold keepChange at h
  by_cases ht : (ch.type == "update-service" || ch.type == "update-instance") = true
  · have htp : ch.type = "update-service" ∨ ch.type = "update-instance" := by
      simpa using ht
    rw [if_pos ht] at h
    by_cases hie : ch.images.isEmpty = true
    · rw [if_pos hie] at h
      have hb : b = false := by simpa using h.symm
      subst hb
      simp only [Bool.false_eq_true, false_iff]
      intro hret
      exact absurd (List.isEmpty_iff.mp hie) (hret htp).1
    · rw [if_neg hie] at h
      have hne : ch.images ≠ [] := fun he => hie (by simp [he])
      by_cases hf : force = true
      · rw [if_pos hf] at h
        have hb : b = true := by simpa using h.symm
        subst hb
        simp only [true_iff]
        exact fun _ => ⟨hne, Or.inl hf⟩
      · rw [if_neg hf] at h
        cases hd : dedupFirst (svcImgs insts ch) with
        | nil =>
          have hnoinst : ∀ i ∈ insts, i.service ≠ ch.service := by
            intro i hi he
            have : i.image ∈ dedupFirst (svcImgs insts ch) := by
              rw [mem_dedupFirst, mem_svcImgs]
              exact ⟨i, hi, he, rfl⟩
            rw [hd] at this
            exact absurd this (by simp)
          simp only [hd] at h
          cases hsu : ch.svcImageUuid with
          | none =>
            simp only [hsu] at h
            exact absurd h (by simp)
          | some u =>
            simp only [hsu] at h
            by_cases hs : (ch.images.filter (fun img => img.uuid != u)).isEmpty = true
            · rw [if_pos hs] at h
              have hb : b = false := by simpa using h.symm
              subst hb
              simp only [Bool.false_eq_true, false_iff]
              intro hret
              rcases (hret htp).2 with hfo | hno
              · exact hf hfo
              · exact hno ⟨u, (sansCurr_empty_iff _ _).mp hs,
                  Or.inr ⟨hnoinst, hsu⟩⟩
            · rw [if_neg hs] at h
              have hb : b = true := by simpa using h.symm
              subst hb
              simp only [true_iff]
              refine fun _ => ⟨hne, Or.inr ?_⟩
              rintro ⟨u', himgs, hbr | hbr⟩
              · obtain ⟨i, hi, hsvc⟩ := hbr.1
                exact hnoinst i hi hsvc
              · have : u' = u := by
                  have := hbr.2
                  rw [hsu] at this
                  exact (Option.some.injEq _ _ ▸ this).symm ▸ rfl
                subst this
                exact hs ((sansCurr_empty_iff _ _).mpr himgs)
        | cons u tl =>
          cases tl with
          | nil =>
            have hall : ∀ i ∈ insts, i.service = ch.service → i.image = u := by
              intro i hi he
              have : i.image ∈ dedupFirst (svcImgs insts ch) := by
                rw [mem_dedupFirst, mem_svcImgs]
                exact ⟨i, hi, he, rfl⟩
              rw [hd] at this
              simpa using this
            have hex : ∃ i ∈ insts, i.service = ch.service := by
              have : u ∈ dedupFirst (svcImgs insts ch) := by rw [hd]; simp
              rw [mem_dedupFirst, mem_svcImgs] at this
              obtain ⟨i, hi, he, _⟩ := this
              exact ⟨i, hi, he⟩
            simp only [hd] at h
            by_cases hs : (ch.images.filter (fun img => img.uuid != u)).isEmpty = true
            · rw [if_pos hs] at h
              have hb : b = false := by simpa using h.symm
              subst hb
              simp only [Bool.false_eq_true, false_iff]
              intro hret
              rcases (hret htp).2 with hfo | hno
              · exact hf hfo
              · exact hno ⟨u, (sansCurr_empty_iff _ _).mp hs,
                  Or.inl ⟨hex, hall⟩⟩
            · rw [if_neg hs] at h
              have hb : b = true := by simpa using h.symm
              subst hb
              simp only [true_iff]
              refine fun _ => ⟨hne, Or.inr ?_⟩
              rintro ⟨u', himgs, hbr | hbr⟩
              · obtain ⟨i, hi, hsvc⟩ := hbr.1
                have hiu : i.image = u := hall i hi hsvc
                have hiu' : i.image = u' := hbr.2 i hi hsvc
                have : u' = u := hiu' ▸ hiu
                subst this
                exact hs ((sansCurr_empty_iff _ _).mpr himgs)
              · obtain ⟨i, hi, he⟩ := hex
                exact hbr.1 i hi he
          | cons u2 tl2 =>
            simp only [hd] at h
            have hb : b = true := by simpa using h.symm
            subst hb
            have h1 : u ∈ dedupFirst (svcImgs insts ch) := by rw [hd]; simp
            have h2 : u2 ∈ dedupFirst (svcImgs insts ch) := by rw [hd]; simp
            have hne12 : u ≠ u2 := by
              have := nodup_dedupFirstAux (svcImgs insts ch) []
              rw [show dedupFirstAux [] (svcImgs insts ch)
                  = dedupFirst (svcImgs insts ch) from rfl, hd] at this
              intro he
              subst he
              simp at this
            rw [mem_dedupFirst, mem_svcImgs] at h1 h2
            simp only [true_iff]
            refine fun _ => ⟨hne, Or.inr ?_⟩
            rintro ⟨u', _, hbr | hbr⟩
            · obtain ⟨i1, hi1, hsvc1, himg1⟩ := h1
              obtain ⟨i2, hi2, hsvc2, himg2⟩ := h2
              have e1 : u = u' := himg1.symm.trans (hbr.2 i1 hi1 hsvc1)
              have e2 : u2 = u' := himg2.symm.trans (hbr.2 i2 hi2 hsvc2)
              exact hne12 (e1.trans e2.symm)
            · obtain ⟨i1, hi1, hsvc1, _⟩ := h1
              exact hbr.1 i1 hi1 hsvc1
  · rw [if_neg ht] at h
    have hb : b = true := by simpa using h.symm
    subst hb
    simp only [true_iff]
    intro htp
    exact absurd (by rcases htp with he | he <;> simp [he]) ht

/-- C7 as amended: on a successful (crash-free) run, `dropNoops` keeps a
subset of the change list, and a change is kept iff it is retained in the
sense of `RetainedC7` — i.e. the same-image drop also applies to
`update-instance` changes, and for an instance-less service the service's
`params.image_uuid` plays the role of the current image. -/
theorem claim_c7_dropNoops_amended (force : Bool) (insts : List Instance)
    (changes kept : List Change)
    (h : dropNoops force insts changes = some kept) :
    (∀ ch ∈ kept, ch ∈ changes) ∧
      (∀ ch ∈ changes, (ch ∈ kept ↔ RetainedC7 force insts ch)) := by
  induction changes generalizing kept with
  | nil =>
    rw [dropNoops] at h
    have : kept = [] := by simpa using h.symm
    subst this
    simp
  | cons c rest ih =>
    rw [dropNoops] at h
    cases hk : keepChange force insts c with
    | none => rw [hk] at h; exact absurd h (by simp)
    | some b =>
      rw [hk] at h
      cases b with
      | true =>
        simp only [Option.map_eq_some'] at h
        obtain ⟨kept', hrest, hkeq⟩ := h
        subst hkeq
        obtain ⟨hsub, hiff⟩ := ih kept' hrest
        have hretc : RetainedC7 force insts c :=
          (keepChange_iff force insts c true hk).mp rfl
        constructor
        · intro ch hch
          rcases List.mem_cons.mp hch with rfl | hch'
          · exact List.mem_cons_self _ _
          · exact List.mem_cons_of_mem _ (hsub ch hch')
        · intro ch hch
          rcases List.mem_cons.mp hch with rfl | hch'
          · simp only [List.mem_cons, true_or, true_iff]
            exact hretc
          · by_cases hc : ch = c
            · subst hc
              simp only [List.mem_cons, true_or, true_iff]
              exact hretc
            · rw [List.mem_cons]
              rw [hiff ch hch']
              constructor
              · rintro (he | hr)
                · exact absurd he hc
                · exact hr
              · exact fun hr => Or.inr hr
      | false =>
        obtain ⟨hsub, hiff⟩ := ih kept h
        have hretc : ¬ RetainedC7 force insts c := by
          intro hr
          exact absurd ((keepChange_iff force insts c false hk).mpr hr)
            (by simp)
        constructor
        · intro ch hch
          exact List.mem_cons_of_mem _ (hsub ch hch)
        · intro ch hch
          rcases List.mem_cons.mp hch with rfl | hch'
          · constructor
            · intro hmem
              exact absurd ((hiff ch (hsub ch hmem)).mp hmem) hretc
            · intro hr
              exact absurd hr hretc
          · exact hiff ch hch'

/-- Counterexample data for C7: the only candidate image for papi. -/
def papiImgA : Image :=
  { uuid := "img-papi-a", name := "papi", version := "1.0.0",
    published_at := "2014-05-01T00:00:00Z" }

/-- Counterexample data for C7: the single papi instance, already running
`papiImgA`. -/
def papiInst : Instance :=
  { type := "vm", service := "papi", instanceId := "papi0-uuid",
    zonename := "papi0-uuid", aliasName := "papi0", version := "1.0.0",
    image := "img-papi-a", server := "srv-hn", hostname := "headnode" }

/-- An `update-instance` change whose only candidate image equals the single
image its service currently runs. -/
def papiInstChange : Change :=
  { type := "update-instance", service := "papi", images := [papiImgA],
    instanceRec := some papiInst }

/-- C7 counterexample: the code's `dropNoops` removes this `update-instance`
change by the same-image rule, while the claim's retention predicate —
which restricts the same-image drop to `update-service` changes — says it
is retained. -/
theorem claim_c7_dropNoops_counterexample :
    dropNoops false [papiInst] [papiInstChange] = some []
      ∧ claimC7Keep false [papiInst] papiInstChange = true :=
  ⟨rfl, rfl⟩

/-- Witness for the amended C7 at a concrete run of `dropNoops`. -/
theorem claim_c7_dropNoops_amended_witness :
    (∀ ch ∈ ([] : List Change), ch ∈ [papiInstChange]) ∧
      (∀ ch ∈ [papiInstChange],
        (ch ∈ ([] : List Change) ↔ RetainedC7 false [papiInst] ch)) :=
  claim_c7_dropNoops_amended false [papiInst] [papiInstChange] [] rfl

/-! Plan materialization: `createPlan` in `genUpdatePlan`. -/

/-- The inner loop body of `createPlan` for an `update-service` change:
every instance of the change's service gets the resolved image's uuid and
version. -/
def applySvcChange (ch : Change) (img : Image) (inst : Instance) : Instance :=
  if inst.service == ch.service then
    { inst with image := img.uuid, version := img.version }
  else inst

/-- One change of the `createPlan` loop over the whole `targ` copy. -/
def applyChangeToTarg (targ : List Instance) (ch : Change) (img : Image) :
    List Instance :=
  targ.map (applySvcChange ch img)

/-- One `createPlan` loop step as an `Except`: only `update-service` is
implemented (anything else is the `unknown ch.type` InternalError), and a
change without a resolved image would crash reading `ch.image.uuid`. -/
def createPlanStep (targ : List Instance) (ch : Change) :
    Except String (List Instance) :=
  if ch.type == "update-service" then
    match ch.image with
    | some img => .ok (applyChangeToTarg targ ch img)
    | none => .error "TypeError: ch.image is undefined"
  else .error ("unknown ch.type: " ++ ch.type)

/-- `createPlan` (genUpdatePlan): `targ` starts as a deep copy of the
inventory (value semantics make the copy the identity) and each change is
applied in order; the result is the `UpdatePlan` with `curr` the inventory
itself. -/
def createPlan (insts : List Instance) (changes : List Change)
    (justImages : Bool) : Except String UpdatePlan := do
  let targ ← changes.foldlM createPlanStep insts
  .ok { v := 1, curr := insts, targ := targ, changes := changes,
        justImages := justImages }

/-- All fields other than `image` and `version` agree. -/
def OtherFieldsEq (a b : Instance) : Prop :=
  b.type = a.type ∧ b.service = a.service ∧ b.instanceId = a.instanceId ∧
    b.zonename = a.zonename ∧ b.aliasName = a.aliasName ∧
    b.server = a.server ∧ b.hostname = a.hostname

theorem OtherFieldsEq.refl (a : Instance) : OtherFieldsEq a a :=
  ⟨rfl, rfl, rfl, rfl, rfl, rfl, rfl⟩

theorem OtherFieldsEq.trans {a b c : Instance}
    (h1 : OtherFieldsEq a b) (h2 : OtherFieldsEq b c) : OtherFieldsEq a c := by
  obtain ⟨e1, e2, e3, e4, e5, e6, e7⟩ := h1
  obtain ⟨f1, f2, f3, f4, f5, f6, f7⟩ := h2
  exact ⟨f1.trans e1, f2.trans e2, f3.trans e3, f4.trans e4, f5.trans e5,
    f6.trans e6, f7.trans e7⟩

theorem applySvcChange_other (ch : Change) (img : Image) (x : Instance) :
    OtherFieldsEq x (applySvcChange ch img x) := by
  unfold applySvcChange
  split
  · exact ⟨rfl, rfl, rfl, rfl, rfl, rfl, rfl⟩
  · exact OtherFieldsEq.refl x

/-- The composite effect of the `createPlan` loop on one instance. -/
def applyAll (chs : List Change) (x : Instance) : Instance :=
  chs.foldl (fun y ch =>
    match ch.image with
    | some img => applySvcChange ch img y
    | none => y) x

theorem applyAll_other (chs : List Change) (x : Instance) :
    OtherFieldsEq x (applyAll chs x) := by
  induction chs generalizing x with
  | nil => exact OtherFieldsEq.refl x
  | cons ch rest ih =>
    rw [applyAll, List.foldl_cons]
    cases hi : ch.image with
    | none => exact ih x
    | some img =>
      exact (applySvcChange_other ch img x).trans (ih _)

theorem applyAll_cases (chs : List Change) (x : Instance) :
    applyAll chs x = x ∨
      ∃ ch ∈ chs, ch.service = x.service ∧ ∃ img, ch.image = some img ∧
        (applyAll chs x).image = img.uuid ∧
        (applyAll chs x).version = img.version := by
  induction chs generalizing x with
  | nil => exact Or.inl rfl
  | cons ch rest ih =>
    have hstep : applyAll (ch :: rest) x
        = applyAll rest (match ch.image with
            | some img => applySvcChange ch img x
            | none => x) := by
      rw [applyAll, List.foldl_cons]; rfl
    cases hi : ch.image with
    | none =>
      rw [hstep]
      simp only [hi]
      rcases ih x with h | ⟨ch', hm, hs, img', hi', h1, h2⟩
      · exact Or.inl h
      · exact Or.inr ⟨ch', List.mem_cons_of_mem _ hm, hs, img', hi', h1, h2⟩
    | some img =>
      rw [hstep]
      simp only [hi]
      by_cases hmatch : (x.service == ch.service) = true
      · have hy : applySvcChange ch img x
            = { x with image := img.uuid, version := img.version } := by
          unfold applySvcChange
          rw [if_pos hmatch]
        rcases ih (applySvcChange ch img x) with h | ⟨ch', hm, hs, img', hi', h1, h2⟩
        · rw [h, hy]
          exact Or.inr ⟨ch, List.mem_cons_self _ _, (beq_iff_eq.mp hmatch).symm,
            img, hi, rfl, rfl⟩
        · refine Or.inr ⟨ch', List.mem_cons_of_mem _ hm, ?_, img', hi', h1, h2⟩
          have : (applySvcChange ch img x).service = x.service :=
            (applySvcChange_other ch img x).2.1
          rw [← this]
          exact hs
      · have hy : applySvcChange ch img x = x := by
          unfold applySvcChange
          rw [if_neg hmatch]
        rw [hy]
        rcases ih x with h | ⟨ch', hm, hs, img', hi', h1, h2⟩
        · exact Or.inl h
        · exact Or.inr ⟨ch', List.mem_cons_of_mem _ hm, hs, img', hi', h1, h2⟩

theorem applyAll_cons (ch : Change) (rest : List Change) (x : Instance) :
    applyAll (ch :: rest) x
      = applyAll rest (match ch.image with
          | some img => applySvcChange ch img x
          | none => x) := rfl

theorem foldlM_createPlanStep_eq :
    ∀ (chs : List Change) (acc targ : List Instance),
      List.foldlM createPlanStep acc chs = .ok targ →
      (targ = acc.map (applyAll chs)
        ∧ ∀ ch ∈ chs, ch.type = "update-service" ∧ ch.image ≠ none) := by
  intro chs
  induction chs with
  | nil =>
    intro acc targ h
    simp only [List.foldlM_nil] at h
    have hacc : acc = targ := by simpa [pure, Except.pure] using h
    subst hacc
    constructor
    · have : ∀ x ∈ acc, x = applyAll [] x := fun x _ => rfl
      simpa using (List.map_congr_left this)
    · intro c hc
      exact absurd hc (by simp)
  | cons ch rest ih =>
    intro acc targ h
    simp only [List.foldlM_cons] at h
    by_cases ht : (ch.type == "update-service") = true
    · rw [createPlanStep, if_pos ht] at h
      cases hi : ch.image with
      | none =>
        rw [hi] at h
        exact absurd h (by simp [Bind.bind, Except.bind])
      | some img =>
        rw [hi] at h
        simp only [Bind.bind, Except.bind] at h
        obtain ⟨hmap, hwf⟩ := ih _ _ h
        constructor
        · rw [hmap, applyChangeToTarg, List.map_map]
          refine List.map_congr_left ?_
          intro x _
          simp only [Function.comp_apply, applyAll_cons, hi]
        · intro c hc
          rcases List.mem_cons.mp hc with rfl | hc'
          · exact ⟨beq_iff_eq.mp ht, by simp [hi]⟩
          · exact hwf c hc'
    · rw [createPlanStep, if_neg ht] at h
      exact absurd h (by simp [Bind.bind, Except.bind])

theorem zip_map_self {α β : Type} (l : List α) (g : α → β) :
    l.zip (l.map g) = l.map (fun x => (x, g x)) := by
  induction l with
  | nil => rfl
  | cons x rest ih => simp [ih]

/-- C5: a successfully created plan keeps the inventory as `curr`, its
`targ` lists the same instance identifiers in the same order, and each
`targ` entry differs from its `curr` entry in at most the `image` and
`version` fields — an affected entry carrying some change's resolved image
uuid and version. -/
theorem claim_c5_createPlan_invariants (insts : List Instance)
    (changes : List Change) (ji : Bool) (plan : UpdatePlan)
    (h : createPlan insts changes ji = .ok plan) :
    plan.curr = insts
      ∧ plan.targ.map (fun i => i.instanceId)
          = plan.curr.map (fun i => i.instanceId)
      ∧ ∀ p ∈ plan.curr.zip plan.targ,
          OtherFieldsEq p.1 p.2
            ∧ (p.2 = p.1 ∨ ∃ ch ∈ changes, ch.service = p.1.service
                ∧ ∃ img, ch.image = some img ∧ p.2.image = img.uuid
                    ∧ p.2.version = img.version) := by
  unfold createPlan at h
  cases hf : List.foldlM createPlanStep insts changes with
  | error e =>
    rw [hf] at h
    exact absurd h (by simp [Bind.bind, Except.bind])
  | ok targ =>
    rw [hf] at h
    have hplan : plan = ⟨1, insts, targ, changes, ji⟩ := by
      have h2 : Except.ok (ε := String) ⟨1, insts, targ, changes, ji⟩
          = Except.ok plan := h
      exact (Except.ok.inj h2).symm
    obtain ⟨hmap, _⟩ := foldlM_createPlanStep_eq changes insts targ hf
    subst hplan
    refine ⟨rfl, ?_, ?_⟩
    · simp only [hmap, List.map_map]
      refine List.map_congr_left ?_
      intro x _
      exact ((applyAll_other changes x).2.2.1 : _)
    · intro p hp
      simp only [hmap] at hp
      rw [zip_map_self] at hp
      obtain ⟨x, _, hpx⟩ := List.mem_map.mp hp
      subst hpx
      refine ⟨applyAll_other changes x, ?_⟩
      rcases applyAll_cases changes x with hid | ⟨ch, hm, hs, img, hi, h1, h2⟩
      · exact Or.inl hid
      · exact Or.inr ⟨ch, hm, hs, img, hi, h1, h2⟩

/-- The plan `createPlan` builds from one cnapi instance and one cnapi
change. -/
def planFromCnapi : UpdatePlan :=
  { v := 1, curr := [cnapiInst],
    targ := [{ cnapiInst with image := cnapiImg.uuid, version := cnapiImg.version }],
    changes := [cnapiChange], justImages := false }

/-- Witness for C5: a one-change, one-instance plan creation. -/
theorem claim_c5_createPlan_invariants_witness :
    planFromCnapi.curr = [cnapiInst]
      ∧ planFromCnapi.targ.map (fun i => i.instanceId)
          = planFromCnapi.curr.map (fun i => i.instanceId)
      ∧ ∀ p ∈ planFromCnapi.curr.zip planFromCnapi.targ,
          OtherFieldsEq p.1 p.2
            ∧ (p.2 = p.1 ∨ ∃ ch ∈ [cnapiChange], ch.service = p.1.service
                ∧ ∃ img, ch.image = some img ∧ p.2.image = img.uuid
                    ∧ p.2.version = img.version) :=
  claim_c5_createPlan_invariants [cnapiInst] [cnapiChange] false
    planFromCnapi rfl

/-! Plan serialization (`UpdatePlan.prototype.serialize`) and the spec's
round-trip property. -/

/-- The four fields `UpdatePlan.prototype.serialize` writes to `plan.json`:
`JSON.stringify({v, targ, changes, justImages}, null, 4)`. JSON encoding of
these records is faithful (stringify/parse round-trips them), so the JSON
value is modelled structurally. -/
structure SerializedPlan where
  v : Nat
  targ : List Instance
  changes : List Change
  justImages : Bool
  deriving DecidableEq, Repr

/-- `UpdatePlan.prototype.serialize` (core SdcAdm module): only `v`,
`targ`, `changes` and `justImages` are written; `curr` (and `procs`) are
not serialized. -/
def UpdatePlan.serialize (p : UpdatePlan) : SerializedPlan :=
  { v := p.v, targ := p.targ, changes := p.changes, justImages := p.justImages }

/-- Modelled from the spec: the source has no deserializer (plans are only
ever written, to `<wrkDir>/plan.json`); the spec describes a reader of the
serialized `{v, targ, changes, justImages}` JSON that must reject format
versions other than `v = 1`. A deserialized plan has no inventory snapshot
to restore `curr` from, so `curr` comes back empty. -/
def deserialize (s : SerializedPlan) : Except String UpdatePlan :=
  if s.v = 1 then
    .ok { v := s.v, curr := [], targ := s.targ, changes := s.changes,
          justImages := s.justImages }
  else .error "unsupported plan format version"

/-- A v=1 plan with a non-empty inventory snapshot. -/
def planWithCurr : UpdatePlan :=
  { v := 1, curr := [cnapiInst], targ := [cnapiInst], changes := [],
    justImages := false }

/-- The same plan with its `curr` forgotten. -/
def planSansCurr : UpdatePlan :=
  { v := 1, curr := [], targ := [cnapiInst], changes := [],
    justImages := false }

/-- C8 counterexample: `serialize` drops `curr`, so two different plans
serialize identically and no deserializer can reproduce the original plan;
in particular the spec-modelled `deserialize` does not. -/
theorem claim_c8_roundtrip_counterexample :
    UpdatePlan.serialize planWithCurr = UpdatePlan.serialize planSansCurr
      ∧ planWithCurr ≠ planSansCurr
      ∧ deserialize (UpdatePlan.serialize planWithCurr)
          ≠ Except.ok planWithCurr := by
  refine ⟨rfl, by decide, fun h => ?_⟩
  have h2 : Except.ok (ε := String) planSansCurr = Except.ok planWithCurr := h
  exact absurd (Except.ok.inj h2) (by decide)

/-- C8 amended: for a version-1 plan, deserializing the serialized form
restores the plan up to the serialized fields — `v`, `targ`, `changes` and
`justImages` — while `curr`, which `serialize` discards, comes back empty. -/
theorem claim_c8_roundtrip_amended (p : UpdatePlan) (h : p.v = 1) :
    deserialize (UpdatePlan.serialize p)
      = Except.ok ⟨1, [], p.targ, p.changes, p.justImages⟩ := by
  simp [deserialize, UpdatePlan.serialize, h]

/-- Witness for the amended C8 at a concrete plan. -/
theorem claim_c8_roundtrip_amended_witness :
    deserialize (UpdatePlan.serialize planWithCurr)
      = Except.ok ⟨1, [], planWithCurr.targ, planWithCurr.changes,
          planWithCurr.justImages⟩ :=
  claim_c8_roundtrip_amended planWithCurr rfl

/-! The manatee update procedure (update-manatee-v2.js): shard status,
wait loops, and the pipeline from `installPrimaryImage` onward as a
step/effect semantics. -/

/-- One role's entry in the `manatee-adm status` output: its `zoneId` and
its `repl` sub-object, modelled as key/value pairs (`none` is a missing
`repl`). -/
structure PeerStatus where
  zoneId : String
  repl : Option (List (String × String))
  deriving DecidableEq, Repr

/-- A `manatee-adm status` result: the `sdc` shard object, an association
of role name to peer status (`none` models a missing `sdc` key). -/
structure ShardStatus where
  sdc : Option (List (String × PeerStatus))
  deriving DecidableEq, Repr

/-- `obj.sdc.<role>`. -/
def roleGet (st : ShardStatus) (role : String) : Option PeerStatus :=
  st.sdc.bind (fun m => m.lookup role)

/-- `up = X.repl && !X.repl.length && Object.keys(X.repl).length === 0`:
the peer's repl object is present and empty. -/
def replUp (p : PeerStatus) : Bool :=
  match p.repl with
  | some kvs => kvs.isEmpty
  | none => false

/-- `X.repl.sync_state`. -/
def replSyncState (p : PeerStatus) : Option String :=
  p.repl.bind (fun kvs => kvs.lookup "sync_state")

/-- The mode computation inside `waitForManatee`: `transition` without an
`sdc` object, `empty` with no peers, `async` when all three roles are
present, the async peer's replication is caught up and the sync peer
streams with `sync_state === 'async'`, `sync` when primary and sync are up
with `sync_state === 'sync'`, and `primary` when only the primary is up. -/
def manateeMode (obj : ShardStatus) : String :=
  match obj.sdc with
  | none => "transition"
  | some m =>
    if m.isEmpty then "empty"
    else
      match m.lookup "primary", m.lookup "sync", m.lookup "async" with
      | some _, some syn, some asy =>
        if replUp asy && replSyncState syn == some "async" then "async"
        else "transition"
      | some pri, some syn, none =>
        if replUp syn && replSyncState pri == some "sync" then "sync"
        else "transition"
      | some pri, none, _ =>
        if replUp pri then "primary" else "transition"
      | _, _, _ => "transition"

/-- `waitForManatee`'s retry loop: poll `i` is the i-th
`manatee-adm status` observation; `fuel` retries remain (the counter
starts at 0 with limit 180, so 179 retries follow the first poll). A
transport error aborts immediately; observing the target mode succeeds;
exhausting the retries is the fatal 15-minute timeout. Each retry is
scheduled 5000 ms after the previous poll (real-time pacing is outside the
model). -/
def waitAttempts (statusAt : Nat → Except String ShardStatus)
    (state : String) : Nat → Nat → Except String Unit
  | i, fuel =>
    match statusAt i with
    | .error e => .error e
    | .ok obj =>
      if manateeMode obj == state then .ok ()
      else
        match fuel with
        | 0 => .error ("Timeout (15m) waiting for manatee to reach " ++ state)
        | f + 1 => waitAttempts statusAt state (i + 1) f

/-- `var limit = 180` in `waitForManatee`. -/
def waitForManateeLimit : Nat := 180

/-- `waitForManatee(state, server, zone, callback)`: at most
`waitForManateeLimit` polls. -/
def waitForManatee (statusAt : Nat → Except String ShardStatus)
    (state : String) : Except String Unit :=
  waitAttempts statusAt state 0 (waitForManateeLimit - 1)

theorem waitAttempts_reached (st : Nat → ShardStatus) (state : String) :
    ∀ (fuel i : Nat), (∃ k, k ≤ fuel ∧ manateeMode (st (i + k)) = state) →
      waitAttempts (fun j => .ok (st j)) state i fuel = .ok () := by
  intro fuel
  induction fuel with
  | zero =>
    rintro i ⟨k, hk, hm⟩
    have hk0 : k = 0 := Nat.le_zero.mp hk
    subst hk0
    rw [waitAttempts]
    simp only [Nat.add_zero] at hm
    simp [hm]
  | succ f ih =>
    rintro i ⟨k, hk, hm⟩
    rw [waitAttempts]
    by_cases h0 : (manateeMode (st i) == state) = true
    · simp [h0]
    · simp only [h0, if_neg, Bool.false_eq_true, if_false]
      cases k with
      | zero =>
        simp only [Nat.add_zero] at hm
        exact absurd (by simp [hm]) h0
      | succ k' =>
        refine ih (i + 1) ⟨k', Nat.succ_le_succ_iff.mp hk, ?_⟩
        have harith : i + 1 + k' = i + (k' + 1) := by omega
        rw [harith]
        exact hm

theorem waitAttempts_timeout (st : Nat → ShardStatus) (state : String) :
    ∀ (fuel i : Nat), (∀ k, k ≤ fuel → manateeMode (st (i + k)) ≠ state) →
      waitAttempts (fun j => .ok (st j)) state i fuel
        = .error ("Timeout (15m) waiting for manatee to reach " ++ state) := by
  intro fuel
  induction fuel with
  | zero =>
    intro i hnone
    rw [waitAttempts]
    have := hnone 0 (Nat.le_refl 0)
    simp only [Nat.add_zero] at this
    simp [this]
  | succ f ih =>
    intro i hnone
    rw [waitAttempts]
    have h0 := hnone 0 (Nat.zero_le _)
    simp only [Nat.add_zero] at h0
    simp only [beq_eq_false_iff_ne.mpr h0, Bool.false_eq_true, if_false]
    refine ih (i + 1) ?_
    intro k hk
    have h1 := hnone (k + 1) (Nat.succ_le_succ hk)
    have harith : i + 1 + k = i + (k + 1) := by omega
    rw [harith]
    exact h1

/-- C3: every wait-for-shard-mode step of the procedure goes through
`waitForManatee`, which makes at most 180 status polls (5 s apart, i.e. 15
minutes): with error-free polls the wait succeeds iff the target mode is
observed within the first 180 polls, and otherwise it terminates with the
fatal timeout error (the pipeline stops there, leaving partial state). -/
theorem claim_c3_waitForManatee_attempt_cap
    (st : Nat → ShardStatus) (state : String) :
    ((∃ k, k < waitForManateeLimit ∧ manateeMode (st k) = state) →
        waitForManatee (fun j => .ok (st j)) state = .ok ())
      ∧ ((∀ k, k < waitForManateeLimit → manateeMode (st k) ≠ state) →
          waitForManatee (fun j => .ok (st j)) state
            = .error ("Timeout (15m) waiting for manatee to reach " ++ state)) := by
  constructor
  · rintro ⟨k, hk, hm⟩
    refine waitAttempts_reached st state _ 0 ⟨k, ?_, by simpa using hm⟩
    exact Nat.lt_succ_iff.mp (by exact hk)
  · intro hnone
    refine waitAttempts_timeout st state _ 0 ?_
    intro k hk
    simpa using hnone k (Nat.lt_succ_iff.mpr hk)

/-- A shard status whose mode is `async`: all three roles present, the
async peer's repl empty, the sync peer streaming with
`sync_state = 'async'`. -/
def statusAsyncUp : ShardStatus :=
  { sdc := some
      [("primary", { zoneId := "pz", repl := some [("sync_state", "sync")] }),
       ("sync", { zoneId := "sz", repl := some [("sync_state", "async")] }),
       ("async", { zoneId := "az", repl := some [] })] }

/-- Witness for C3: with the shard permanently in `async` mode the wait
succeeds at the first poll. -/
theorem claim_c3_waitForManatee_attempt_cap_witness :
    waitForManatee (fun _ => .ok statusAsyncUp) "async" = .ok () :=
  (claim_c3_waitForManatee_attempt_cap (fun _ => statusAsyncUp) "async").1
    ⟨0, by decide, by decide⟩

/-- A peer record in `arg.shard` after `getShardServers`: the zone and the
compute node it runs on. -/
structure PeerRec where
  zoneId : String
  server_uuid : String
  deriving DecidableEq, Repr

/-- `arg.shard` with optional roles (a role is absent when the observed
shard status lacked it). -/
structure ShardArg where
  primary : Option PeerRec
  sync : Option PeerRec
  async : Option PeerRec
  deriving DecidableEq, Repr

/-- The pipeline argument: the HA flag (`change.insts.length > 1`) and the
discovered shard. -/
structure MArg where
  HA : Bool
  shard : ShardArg
  deriving DecidableEq, Repr

/-- Observable actions of the pipeline: attempted remote commands, sleeps,
and completed waits. -/
inductive Effect where
  | installImageLocal
  | installImage (server : String)
  | disable (server zoneId : String)
  | reprovision (server zoneId : String)
  | sleep60
  | waited (target server zoneId : String)
  | promoted (server zoneId : String)
  | lookupSapi
  | setProtoMode
  | restartSapiProto
  | pgUp
  | setModeFull
  deriving DecidableEq, Repr

/-- The pipeline functions from `installPrimaryImage` to `waitForShardHA`
(the functions before them fetch the user-script and build `arg.shard`,
which the model takes as input). -/
inductive MStep where
  | installPrimaryImage
  | verifyFullHA
  | disableAsync
  | waitForAsyncDisabled
  | installImageAsyncServer
  | reprovisionAsync
  | waitForAsync
  | waitForHA
  | disableSync
  | waitForSyncDisabled
  | installImageSyncServer
  | reprovisionSync
  | waitForSync
  | waitForHASync
  | disablePrimaryManatee
  | waitForShardPromotion
  | getLocalSapi
  | setSapiProtoMode
  | restartSapiIntoProtoMode
  | reprovisionPrimary
  | waitForPrimaryInstance
  | waitForPrimaryPG
  | resetSapiToFullMode
  | waitForShardHA
  deriving DecidableEq, Repr

/-- The funcs array of `updateManatee`'s vasync pipeline from
`installPrimaryImage` on, in source order. -/
def manateeFuncs : List MStep :=
  [.installPrimaryImage, .verifyFullHA, .disableAsync, .waitForAsyncDisabled,
   .installImageAsyncServer, .reprovisionAsync, .waitForAsync, .waitForHA,
   .disableSync, .waitForSyncDisabled, .installImageSyncServer,
   .reprovisionSync, .waitForSync, .waitForHASync, .disablePrimaryManatee,
   .waitForShardPromotion, .getLocalSapi, .setSapiProtoMode,
   .restartSapiIntoProtoMode, .reprovisionPrimary, .waitForPrimaryInstance,
   .waitForPrimaryPG, .resetSapiToFullMode, .waitForShardHA]

/-- The environment: outcomes of remote commands (`exec`), shard status
polls per wait step and attempt, PostgreSQL ping outcomes, and a modelling
fuel bounding the two source loops whose `counter` is never incremented. -/
structure MEnv where
  exec : Effect → Except String Unit
  statusAt : MStep → Nat → Except String ShardStatus
  pgOkAt : Nat → Bool
  loopFuel : Nat

/-- Reading a property of an absent shard role throws in JS. -/
def typeErrorMsg : String := "TypeError: cannot read property of undefined"

/-- Model artifact: the source loop is still running (its `counter` is
never incremented, so its timeout branch is unreachable and it retries
forever). -/
def fuelMsg : String := "model: poll loop still running after modelling fuel"

/-- `waitForShardPromotion`'s inner loop, polling the former async peer:
success when the reported primary zone differs from the original primary's.
The source declares `counter = 0` / `limit = 36` but never increments
`counter`, so the timeout branch is unreachable; `fuel` bounds the
modelled retries. -/
def promotionLoop (statusAt : Nat → Except String ShardStatus)
    (origZone : String) (counter limit : Nat) :
    Nat → Nat → Option (Except String Unit)
  | _, 0 => none
  | i, f + 1 =>
    match statusAt i with
    | .error e => some (.error e)
    | .ok obj =>
      match roleGet obj "primary" with
      | none => some (.error typeErrorMsg)
      | some pr =>
        if pr.zoneId != origZone then some (.ok ())
        else if counter < limit then
          promotionLoop statusAt origZone counter limit (i + 1) f
        else some (.error "Timeout (3min) waiting for shard promotion")

/-- `waitForPostgresUp`'s loop: ping until `SELECT NOW()` succeeds. As with
the promotion loop, `counter` is never incremented, so the `Timeout (60s)`
branch is unreachable. -/
def pgLoop (pgOk : Nat → Bool) (counter limit : Nat) :
    Nat → Nat → Option (Except String Unit)
  | _, 0 => none
  | i, f + 1 =>
    if pgOk i then some (.ok ())
    else if counter < limit then pgLoop pgOk counter limit (i + 1) f
    else some (.error "Timeout (60s) waiting for Postgres")

/-- With error-free polls, the promotion loop can never report its
timeout: `counter` stays 0, so `counter < limit` always holds. -/
theorem promotionLoop_no_timeout (statusAt : Nat → Except String ShardStatus)
    (origZone : String) (hok : ∀ j e, statusAt j ≠ .error e) :
    ∀ (f i : Nat), promotionLoop statusAt origZone 0 36 i f
      ≠ some (.error "Timeout (3min) waiting for shard promotion") := by
  intro f
  induction f with
  | zero => intro i h; exact absurd h (by rw [promotionLoop]; simp)
  | succ f ih =>
    intro i h
    rw [promotionLoop] at h
    rcases hst : statusAt i with e | obj
    · exact hok i e hst
    · simp only [hst] at h
      rcases hro : roleGet obj "primary" with _ | pr
      · simp only [hro] at h
        simp [typeErrorMsg] at h
      · simp only [hro] at h
        by_cases hz : (pr.zoneId != origZone) = true
        · rw [if_pos hz] at h
          simp at h
        · rw [if_neg hz, if_pos (by decide : (0:Nat) < 36)] at h
          exact ih (i + 1) h

/-- The PostgreSQL wait can never report its timeout either. -/
theorem pgLoop_no_timeout (pgOk : Nat → Bool) :
    ∀ (f i : Nat), pgLoop pgOk 0 36 i f
      ≠ some (.error "Timeout (60s) waiting for Postgres") := by
  intro f
  induction f with
  | zero => intro i h; exact absurd h (by rw [pgLoop]; simp)
  | succ f ih =>
    intro i h
    rw [pgLoop] at h
    by_cases hp : pgOk i = true
    · rw [if_pos hp] at h
      simp at h
    · rw [if_neg hp, if_pos (by decide : (0:Nat) < 36)] at h
      exact ih (i + 1) h

/-- Accessing a role that may be absent: JS throws on the property read,
before any remote command is issued. -/
def withPeer (o : Option PeerRec)
    (k : PeerRec → List Effect × Except String Unit) :
    List Effect × Except String Unit :=
  match o with
  | none => ([], .error typeErrorMsg)
  | some r => k r

/-- A primitive remote action: the effect is attempted, the environment
decides its outcome. -/
def prim (env : MEnv) (e : Effect) : List Effect × Except String Unit :=
  ([e], env.exec e)

/-- A step that does nothing on this branch (`return next()`). -/
def skipStep : List Effect × Except String Unit := ([], .ok ())

/-- A `waitForManatee` call within a step: a completed wait is recorded; a
failed one records nothing and aborts the pipeline. -/
def runWait (env : MEnv) (s : MStep) (target : String) (p : PeerRec) :
    List Effect × Except String Unit :=
  match waitForManatee (env.statusAt s) target with
  | .ok _ => ([.waited target p.server_uuid p.zoneId], .ok ())
  | .error e => ([], .error e)

/-- One pipeline step, translated from the corresponding function of the
source's funcs array (each starts with its `!arg.HA` / `arg.HA` early
return). -/
def execStep (arg : MArg) (env : MEnv) :
    MStep → List Effect × Except String Unit
  | .installPrimaryImage =>
    if !arg.HA then prim env .installImageLocal
    else withPeer arg.shard.primary fun p =>
      prim env (.installImage p.server_uuid)
  | .verifyFullHA =>
    -- only `sync` and `async` are checked, never `primary`; this is the
    -- FIRST invocation of the stage's callback — the source's missing
    -- `return` makes it fire a second time, which `updateManateeRun`
    -- models as the background continuation of the pipeline
    if !arg.HA then skipStep
    else if arg.shard.sync.isNone || arg.shard.async.isNone then
      ([], .error "HA setup error")
    else skipStep
  | .disableAsync =>
    if !arg.HA then skipStep
    else withPeer arg.shard.async fun a =>
      prim env (.disable a.server_uuid a.zoneId)
  | .waitForAsyncDisabled =>
    if !arg.HA then skipStep
    else withPeer arg.shard.primary fun p =>
      runWait env .waitForAsyncDisabled "sync" p
  | .installImageAsyncServer =>
    if !arg.HA then skipStep
    else withPeer arg.shard.async fun a =>
      withPeer arg.shard.primary fun p =>
        if a.server_uuid == p.server_uuid then skipStep
        else prim env (.installImage a.server_uuid)
  | .reprovisionAsync =>
    if !arg.HA then skipStep
    else withPeer arg.shard.async fun a =>
      prim env (.reprovision a.server_uuid a.zoneId)
  | .waitForAsync =>
    if !arg.HA then skipStep else ([.sleep60], .ok ())
  | .waitForHA =>
    if !arg.HA then skipStep
    else withPeer arg.shard.primary fun p => runWait env .waitForHA "async" p
  | .disableSync =>
    if !arg.HA then skipStep
    else withPeer arg.shard.sync fun sy =>
      prim env (.disable sy.server_uuid sy.zoneId)
  | .waitForSyncDisabled =>
    if !arg.HA then skipStep
    else withPeer arg.shard.primary fun p =>
      runWait env .waitForSyncDisabled "sync" p
  | .installImageSyncServer =>
    if !arg.HA then skipStep
    else withPeer arg.shard.sync fun sy =>
      withPeer arg.shard.primary fun p =>
        withPeer arg.shard.async fun a =>
          if sy.server_uuid == p.server_uuid
              || sy.server_uuid == a.server_uuid then skipStep
          else prim env (.installImage sy.server_uuid)
  | .reprovisionSync =>
    if !arg.HA then skipStep
    else withPeer arg.shard.sync fun sy =>
      prim env (.reprovision sy.server_uuid sy.zoneId)
  | .waitForSync =>
    if !arg.HA then skipStep else ([.sleep60], .ok ())
  | .waitForHASync =>
    if !arg.HA then skipStep
    else withPeer arg.shard.primary fun p =>
      runWait env .waitForHASync "async" p
  | .disablePrimaryManatee =>
    if !arg.HA then skipStep
    else withPeer arg.shard.primary fun p =>
      prim env (.disable p.server_uuid p.zoneId)
  | .waitForShardPromotion =>
    if !arg.HA then skipStep
    else withPeer arg.shard.async fun a =>
      withPeer arg.shard.primary fun p =>
        match promotionLoop (env.statusAt .waitForShardPromotion) p.zoneId
            0 36 0 env.loopFuel with
        | none => ([], .error fuelMsg)
        | some (.ok _) => ([.promoted a.server_uuid a.zoneId], .ok ())
        | some (.error e) => ([], .error e)
  | .getLocalSapi =>
    if arg.HA then skipStep else prim env .lookupSapi
  | .setSapiProtoMode =>
    if arg.HA then skipStep else prim env .setProtoMode
  | .restartSapiIntoProtoMode =>
    if arg.HA then skipStep else prim env .restartSapiProto
  | .reprovisionPrimary =>
    withPeer arg.shard.primary fun p =>
      prim env (.reprovision p.server_uuid p.zoneId)
  | .waitForPrimaryInstance => ([.sleep60], .ok ())
  | .waitForPrimaryPG =>
    if arg.HA then skipStep
    else withPeer arg.shard.primary fun _ =>
      match pgLoop env.pgOkAt 0 36 0 env.loopFuel with
      | none => ([], .error fuelMsg)
      | some (.ok _) => ([.pgUp], .ok ())
      | some (.error e) => ([], .error e)
  | .resetSapiToFullMode =>
    if arg.HA then skipStep else prim env .setModeFull
  | .waitForShardHA =>
    if !arg.HA then skipStep
    else withPeer arg.shard.async fun a => runWait env .waitForShardHA "async" a

/-- `vasync.pipeline` over the steps: run in order, stop at the first
error, accumulate the effect trace. -/
def runSteps (arg : MArg) (env : MEnv) :
    List MStep → List Effect × Except String Unit
  | [] => ([], .ok ())
  | s :: rest =>
    match execStep arg env s with
    | (es, .ok _) =>
      let r2 := runSteps arg env rest
      (es ++ r2.1, r2.2)
    | (es, .error e) => (es, .error e)

/-- `verifyFullHA`'s error path is missing a `return`: on the HA path with
the `sync` or the `async` role absent, the source runs
`next('HA setup error')` and then falls through to `return next()`,
invoking its pipeline callback twice. -/
def verifyCallsNextTwice (arg : MArg) : Bool :=
  arg.HA && (arg.shard.sync.isNone || arg.shard.async.isNone)

/-- The whole modelled pipeline for one change of `UpdateManateeV2`. On
the `verifyCallsNextTwice` path the second stage's callback fires twice:
vasync's pipeline has no double-invocation guard, so the first invocation
delivers 'HA setup error' to the pipeline's caller, and the second
advances the stage counter once more — past `disableAsync`'s slot — after
which the pipeline keeps running in the background from
`waitForAsyncDisabled` onward. The caller already holds the error; the
background continuation still performs its effects, and its own outcome is
never delivered. On every other path each stage invokes its callback once
and the pipeline stops at the first error. -/
def updateManateeRun (arg : MArg) (env : MEnv) :
    List Effect × Except String Unit :=
  if verifyCallsNextTwice arg then
    match runSteps arg env [.installPrimaryImage] with
    | (t0, .error e) => (t0, .error e)
    | (t0, .ok _) =>
      (t0 ++ (runSteps arg env (manateeFuncs.drop 3)).1,
       .error "HA setup error")
  else runSteps arg env manateeFuncs

theorem updateManateeRun_normal (arg : MArg) (env : MEnv)
    (h : verifyCallsNextTwice arg = false) :
    updateManateeRun arg env = runSteps arg env manateeFuncs := by
  simp [updateManateeRun, h]

/-- A role's trace contribution when present. -/
def peerEffects (o : Option PeerRec) (k : PeerRec → List Effect) :
    List Effect :=
  match o with
  | none => []
  | some r => k r

/-- The effect trace of one step when it runs to completion; a failing or
crashing step emits a prefix of this. -/
def stepEffects (arg : MArg) : MStep → List Effect
  | .installPrimaryImage =>
    if !arg.HA then [.installImageLocal]
    else peerEffects arg.shard.primary fun p => [.installImage p.server_uuid]
  | .verifyFullHA => []
  | .disableAsync =>
    if !arg.HA then []
    else peerEffects arg.shard.async fun a => [.disable a.server_uuid a.zoneId]
  | .waitForAsyncDisabled =>
    if !arg.HA then []
    else peerEffects arg.shard.primary fun p =>
      [.waited "sync" p.server_uuid p.zoneId]
  | .installImageAsyncServer =>
    if !arg.HA then []
    else peerEffects arg.shard.async fun a =>
      peerEffects arg.shard.primary fun p =>
        if a.server_uuid == p.server_uuid then []
        else [.installImage a.server_uuid]
  | .reprovisionAsync =>
    if !arg.HA then []
    else peerEffects arg.shard.async fun a =>
      [.reprovision a.server_uuid a.zoneId]
  | .waitForAsync => if !arg.HA then [] else [.sleep60]
  | .waitForHA =>
    if !arg.HA then []
    else peerEffects arg.shard.primary fun p =>
      [.waited "async" p.server_uuid p.zoneId]
  | .disableSync =>
    if !arg.HA then []
    else peerEffects arg.shard.sync fun sy =>
      [.disable sy.server_uuid sy.zoneId]
  | .waitForSyncDisabled =>
    if !arg.HA then []
    else peerEffects arg.shard.primary fun p =>
      [.waited "sync" p.server_uuid p.zoneId]
  | .installImageSyncServer =>
    if !arg.HA then []
    else peerEffects arg.shard.sync fun sy =>
      peerEffects arg.shard.primary fun p =>
        peerEffects arg.shard.async fun a =>
          if sy.server_uuid == p.server_uuid
              || sy.server_uuid == a.server_uuid then []
          else [.installImage sy.server_uuid]
  | .reprovisionSync =>
    if !arg.HA then []
    else peerEffects arg.shard.sync fun sy =>
      [.reprovision sy.server_uuid sy.zoneId]
  | .waitForSync => if !arg.HA then [] else [.sleep60]
  | .waitForHASync =>
    if !arg.HA then []
    else peerEffects arg.shard.primary fun p =>
      [.waited "async" p.server_uuid p.zoneId]
  | .disablePrimaryManatee =>
    if !arg.HA then []
    else peerEffects arg.shard.primary fun p =>
      [.disable p.server_uuid p.zoneId]
  | .waitForShardPromotion =>
    if !arg.HA then []
    else peerEffects arg.shard.async fun a =>
      peerEffects arg.shard.primary fun _ =>
        [.promoted a.server_uuid a.zoneId]
  | .getLocalSapi => if arg.HA then [] else [.lookupSapi]
  | .setSapiProtoMode => if arg.HA then [] else [.setProtoMode]
  | .restartSapiIntoProtoMode => if arg.HA then [] else [.restartSapiProto]
  | .reprovisionPrimary =>
    peerEffects arg.shard.primary fun p =>
      [.reprovision p.server_uuid p.zoneId]
  | .waitForPrimaryInstance => [.sleep60]
  | .waitForPrimaryPG =>
    if arg.HA then []
    else peerEffects arg.shard.primary fun _ => [.pgUp]
  | .resetSapiToFullMode => if arg.HA then [] else [.setModeFull]
  | .waitForShardHA =>
    if !arg.HA then []
    else peerEffects arg.shard.async fun a =>
      [.waited "async" a.server_uuid a.zoneId]

theorem execStep_fst_cases (arg : MArg) (env : MEnv) (s : MStep) :
    (execStep arg env s).1 = stepEffects arg s
      ∨ (execStep arg env s).1 = [] := by
  obtain ⟨HA, ⟨pri, syn, asy⟩⟩ := arg
  cases HA <;> cases s <;>
    rcases pri with _ | p <;> rcases syn with _ | sy <;> rcases asy with _ | a <;>
    simp only [execStep, stepEffects, prim, skipStep, runWait, withPeer,
      peerEffects, Bool.not_true, Bool.not_false] <;>
    (repeat' split) <;>
    (first
      | exact Or.inl trivial
      | exact Or.inl rfl
      | exact Or.inr rfl
      | simp_all)

theorem execStep_fst_of_ok (arg : MArg) (env : MEnv) (s : MStep)
    (h : (execStep arg env s).2 = .ok ()) :
    (execStep arg env s).1 = stepEffects arg s := by
  obtain ⟨HA, ⟨pri, syn, asy⟩⟩ := arg
  cases HA <;> cases s <;>
    rcases pri with _ | p <;> rcases syn with _ | sy <;> rcases asy with _ | a <;>
    simp only [execStep, stepEffects, prim, skipStep, runWait, withPeer,
      peerEffects, Bool.not_true, Bool.not_false] at h ⊢ <;>
    (repeat' split) <;>
    (first
      | trivial
      | rfl
      | simp_all)

/-- The full-success effect trace of a step list. -/
def canonTrace (arg : MArg) (l : List MStep) : List Effect :=
  l.foldr (fun s acc => stepEffects arg s ++ acc) []

theorem canonTrace_cons (arg : MArg) (s : MStep) (l : List MStep) :
    canonTrace arg (s :: l) = stepEffects arg s ++ canonTrace arg l := rfl

theorem canonTrace_append (arg : MArg) :
    ∀ (xs ys : List MStep),
      canonTrace arg (xs ++ ys) = canonTrace arg xs ++ canonTrace arg ys := by
  intro xs ys
  induction xs with
  | nil => rfl
  | cons s rest ih => simp [canonTrace_cons, ih]

theorem runSteps_cons_ok (arg : MArg) (env : MEnv) (s : MStep)
    (rest : List MStep) (es : List Effect) (u : Unit)
    (hst : execStep arg env s = (es, .ok u)) :
    runSteps arg env (s :: rest)
      = (es ++ (runSteps arg env rest).1, (runSteps arg env rest).2) := by
  rw [runSteps, hst]

theorem runSteps_cons_err (arg : MArg) (env : MEnv) (s : MStep)
    (rest : List MStep) (es : List Effect) (e : String)
    (hst : execStep arg env s = (es, .error e)) :
    runSteps arg env (s :: rest) = (es, .error e) := by
  rw [runSteps, hst]

theorem runSteps_append_ok (arg : MArg) (env : MEnv) (ys : List MStep) :
    ∀ (xs : List MStep), (runSteps arg env xs).2 = .ok () →
      runSteps arg env (xs ++ ys)
        = ((runSteps arg env xs).1 ++ (runSteps arg env ys).1,
           (runSteps arg env ys).2) := by
  intro xs
  induction xs with
  | nil => intro _; simp [runSteps]
  | cons s rest ih =>
    intro h
    rcases hst : execStep arg env s with ⟨es, r⟩
    cases r with
    | ok u =>
      rw [runSteps_cons_ok arg env s rest es u hst] at h
      simp only at h
      rw [List.cons_append,
        runSteps_cons_ok arg env s (rest ++ ys) es u hst,
        runSteps_cons_ok arg env s rest es u hst, ih h]
      simp
    | error e =>
      rw [runSteps_cons_err arg env s rest es e hst] at h
      exact absurd h (by simp)

theorem runSteps_append_err (arg : MArg) (env : MEnv) (ys : List MStep) :
    ∀ (xs : List MStep) (e : String), (runSteps arg env xs).2 = .error e →
      runSteps arg env (xs ++ ys) = runSteps arg env xs := by
  intro xs
  induction xs with
  | nil =>
    intro e h
    rw [runSteps] at h
    exact absurd h (by simp)
  | cons s rest ih =>
    intro e h
    rcases hst : execStep arg env s with ⟨es, r⟩
    cases r with
    | ok u =>
      rw [runSteps_cons_ok arg env s rest es u hst] at h
      simp only at h
      rw [List.cons_append,
        runSteps_cons_ok arg env s (rest ++ ys) es u hst,
        runSteps_cons_ok arg env s rest es u hst, ih e h]
    | error e' =>
      rw [runSteps_cons_err arg env s rest es e' hst] at h ⊢
      rw [List.cons_append, runSteps_cons_err arg env s (rest ++ ys) es e' hst]

theorem runSteps_trace_of_ok (arg : MArg) (env : MEnv) :
    ∀ (l : List MStep), (runSteps arg env l).2 = .ok () →
      (runSteps arg env l).1 = canonTrace arg l := by
  intro l
  induction l with
  | nil => intro _; rfl
  | cons s rest ih =>
    intro h
    rcases hst : execStep arg env s with ⟨es, r⟩
    cases r with
    | ok u =>
      rw [runSteps_cons_ok arg env s rest es u hst] at h ⊢
      simp only at h ⊢
      rw [canonTrace_cons, ih h]
      have hfst : es = stepEffects arg s := by
        have h2 := execStep_fst_of_ok arg env s (by rw [hst])
        rw [hst] at h2
        exact h2
      rw [hfst]
    | error e =>
      rw [runSteps_cons_err arg env s rest es e hst] at h
      exact absurd h (by simp)

theorem runSteps_trace_isPre (arg : MArg) (env : MEnv) :
    ∀ (l : List MStep),
      ∃ rest, canonTrace arg l = (runSteps arg env l).1 ++ rest := by
  intro l
  induction l with
  | nil => exact ⟨[], rfl⟩
  | cons s rest ih =>
    rcases hst : execStep arg env s with ⟨es, r⟩
    cases r with
    | ok u =>
      obtain ⟨tail, htail⟩ := ih
      have hfst : es = stepEffects arg s := by
        have h2 := execStep_fst_of_ok arg env s (by rw [hst])
        rw [hst] at h2
        exact h2
      refine ⟨tail, ?_⟩
      rw [runSteps_cons_ok arg env s rest es u hst, canonTrace_cons, htail,
        hfst]
      simp
    | error e =>
      have hcases := execStep_fst_cases arg env s
      rw [hst] at hcases
      simp only at hcases
      rw [runSteps_cons_err arg env s rest es e hst]
      rcases hcases with hfull | hnil
      · exact ⟨canonTrace arg rest, by rw [canonTrace_cons, hfull]⟩
      · exact ⟨stepEffects arg s ++ canonTrace arg rest,
          by rw [canonTrace_cons, hnil]; simp⟩

/-- Constructor shorthand for an HA-mode argument. -/
def mkHAArg (pri syn asy : Option PeerRec) : MArg :=
  { HA := true, shard := { primary := pri, sync := syn, async := asy } }

/-- Constructor shorthand for a no-HA argument. -/
def mkNoHAArg (shard : ShardArg) : MArg :=
  { HA := false, shard := shard }

/-- A benign environment: every remote command succeeds, every poll
returns an empty shard object, PostgreSQL answers at once. -/
def envAllOk : MEnv :=
  { exec := fun _ => .ok (),
    statusAt := fun _ _ => .ok { sdc := some [] },
    pgOkAt := fun _ => true,
    loopFuel := 1 }

/-- The three peers used by the concrete manatee scenarios. -/
def primaryPeer : PeerRec := { zoneId := "pz", server_uuid := "psrv" }

/-- The sync peer of the concrete scenarios. -/
def syncPeer : PeerRec := { zoneId := "sz", server_uuid := "ssrv" }

/-- The async peer of the concrete scenarios. -/
def asyncPeer : PeerRec := { zoneId := "az", server_uuid := "asrv" }

/-- A shard status reporting mode `sync`: primary streaming with
`sync_state === 'sync'`, sync peer's repl empty, no async. -/
def statusSyncMode : ShardStatus :=
  { sdc := some
      [("primary", { zoneId := "pz", repl := some [("sync_state", "sync")] }),
       ("sync", { zoneId := "sz", repl := some [] })] }

/-- A shard status whose reported primary zone (`qz`) differs from the
original primary's (`pz`): the promotion poll succeeds on it. -/
def statusPromoted : ShardStatus :=
  { sdc := some [("primary", { zoneId := "qz", repl := some [] })] }

/-- An environment driving the full HA pipeline to success: each wait step
observes its target mode at the first poll and every remote command
succeeds. -/
def envC2 : MEnv :=
  { exec := fun _ => .ok (),
    statusAt := fun s _ =>
      .ok (match s with
        | .waitForAsyncDisabled => statusSyncMode
        | .waitForSyncDisabled => statusSyncMode
        | .waitForShardPromotion => statusPromoted
        | _ => statusAsyncUp),
    pgOkAt := fun _ => true,
    loopFuel := 1 }

/-- C4: `verifyFullHA` does not behave as claimed, in two ways. First, it
never checks the `primary` role: with sync and async present but the
primary absent, the run crashes in `installPrimaryImage` reading
`arg.shard.primary.server_uuid` of the absent primary (modelled
TypeError) instead of failing with 'HA setup error'. Second, its error
path is missing a `return`: `next('HA setup error')` falls through to
`return next()`, so the pipeline callback fires twice — the caller does
receive 'HA setup error', yet the pipeline keeps running in the
background and, here with the sync role absent and benign polls, goes on
to reprovision the async peer, contradicting the claim that no peer is
disabled or reprovisioned after the failure. -/
theorem claim_c4_verifyFullHA_code_bug :
    (updateManateeRun (mkHAArg none (some syncPeer) (some asyncPeer)) envAllOk
        = ([], .error typeErrorMsg)
      ∧ typeErrorMsg ≠ "HA setup error")
    ∧ ((updateManateeRun (mkHAArg (some primaryPeer) none (some asyncPeer))
          envC2).2 = .error "HA setup error"
      ∧ Effect.reprovision asyncPeer.server_uuid asyncPeer.zoneId
          ∈ (updateManateeRun
              (mkHAArg (some primaryPeer) none (some asyncPeer)) envC2).1) :=
  ⟨⟨rfl, by decide⟩, rfl, by decide⟩

theorem runSteps_append_parts (arg : MArg) (env : MEnv) (xs ys : List MStep)
    (h : (runSteps arg env (xs ++ ys)).2 = .ok ()) :
    (runSteps arg env xs).2 = .ok () ∧ (runSteps arg env ys).2 = .ok () := by
  cases hx : (runSteps arg env xs).2 with
  | ok u =>
    cases u
    rw [runSteps_append_ok arg env ys xs hx] at h
    exact ⟨rfl, h⟩
  | error e =>
    rw [runSteps_append_err arg env ys xs e hx, hx] at h
    exact absurd h (by simp)

/-- The pipeline steps strictly before `resetSapiToFullMode`. -/
def manateePreReset : List MStep :=
  [.installPrimaryImage, .verifyFullHA, .disableAsync, .waitForAsyncDisabled,
   .installImageAsyncServer, .reprovisionAsync, .waitForAsync, .waitForHA,
   .disableSync, .waitForSyncDisabled, .installImageSyncServer,
   .reprovisionSync, .waitForSync, .waitForHASync, .disablePrimaryManatee,
   .waitForShardPromotion, .getLocalSapi, .setSapiProtoMode,
   .restartSapiIntoProtoMode, .reprovisionPrimary, .waitForPrimaryInstance,
   .waitForPrimaryPG]

theorem manateeFuncs_eq_pre_reset :
    manateeFuncs = manateePreReset ++ [.resetSapiToFullMode, .waitForShardHA] :=
  rfl

/-- C10: on the no-HA path, `resetSapiToFullMode` (the `setMode('full')`
restoration) runs only when every preceding step succeeded — its effect in
the trace implies the local install, the SAPI lookup, the proto-mode
switch, the SAPI restart, the primary's reprovision, the sleep and the
PostgreSQL confirmation all happened — and conversely a fully successful
run does restore full mode. A failure after proto mode was entered
therefore returns that error with SAPI left in proto mode. -/
theorem claim_c10_sapi_restore_only_after_success (shard : ShardArg)
    (env : MEnv) :
    (Effect.setModeFull ∈ (updateManateeRun (mkNoHAArg shard) env).1 →
      (Effect.installImageLocal ∈ (updateManateeRun (mkNoHAArg shard) env).1
        ∧ Effect.lookupSapi ∈ (updateManateeRun (mkNoHAArg shard) env).1
        ∧ Effect.setProtoMode ∈ (updateManateeRun (mkNoHAArg shard) env).1
        ∧ Effect.restartSapiProto ∈ (updateManateeRun (mkNoHAArg shard) env).1
        ∧ (∃ p, shard.primary = some p
            ∧ Effect.reprovision p.server_uuid p.zoneId
                ∈ (updateManateeRun (mkNoHAArg shard) env).1)
        ∧ Effect.sleep60 ∈ (updateManateeRun (mkNoHAArg shard) env).1
        ∧ Effect.pgUp ∈ (updateManateeRun (mkNoHAArg shard) env).1))
    ∧ ((updateManateeRun (mkNoHAArg shard) env).2 = .ok () →
        Effect.setModeFull ∈ (updateManateeRun (mkNoHAArg shard) env).1) := by
  have hnorm : updateManateeRun (mkNoHAArg shard) env
      = runSteps (mkNoHAArg shard) env manateeFuncs :=
    updateManateeRun_normal _ _ rfl
  constructor
  · intro hmem
    cases hpre : (runSteps (mkNoHAArg shard) env manateePreReset).2 with
    | error e =>
      have hrun : updateManateeRun (mkNoHAArg shard) env
          = runSteps (mkNoHAArg shard) env manateePreReset := by
        rw [hnorm, manateeFuncs_eq_pre_reset,
          runSteps_append_err _ _ _ _ e hpre]
      rw [hrun] at hmem
      obtain ⟨rest, hc⟩ :=
        runSteps_trace_isPre (mkNoHAArg shard) env manateePreReset
      have hcanon : Effect.setModeFull
          ∈ canonTrace (mkNoHAArg shard) manateePreReset := by
        rw [hc]
        exact List.mem_append_left _ hmem
      refine absurd hcanon ?_
      rcases shard with ⟨pri, syn, asy⟩
      rcases pri with _ | p <;>
        simp [canonTrace, manateePreReset, stepEffects, mkNoHAArg, peerEffects]
    | ok u =>
      cases u
      -- the primary role must be present, since reprovisionPrimary succeeded
      have hsplit : (runSteps (mkNoHAArg shard) env
          ([.installPrimaryImage, .verifyFullHA, .disableAsync,
            .waitForAsyncDisabled, .installImageAsyncServer,
            .reprovisionAsync, .waitForAsync, .waitForHA, .disableSync,
            .waitForSyncDisabled, .installImageSyncServer, .reprovisionSync,
            .waitForSync, .waitForHASync, .disablePrimaryManatee,
            .waitForShardPromotion, .getLocalSapi, .setSapiProtoMode,
            .restartSapiIntoProtoMode]
           ++ [.reprovisionPrimary, .waitForPrimaryInstance,
               .waitForPrimaryPG])).2 = .ok () := hpre
      have h3 := (runSteps_append_parts _ _ _ _ hsplit).2
      obtain ⟨p, hpri⟩ : ∃ p, shard.primary = some p := by
        rcases hq : execStep (mkNoHAArg shard) env .reprovisionPrimary
          with ⟨es, r⟩
        cases r with
        | error e =>
          rw [runSteps_cons_err _ _ _ _ _ _ hq] at h3
          exact absurd h3 (by simp)
        | ok u =>
          cases hpri : shard.primary with
          | none =>
            rw [show execStep (mkNoHAArg shard) env .reprovisionPrimary
                = ([], .error typeErrorMsg) from by
              simp [execStep, mkNoHAArg, withPeer, hpri]] at hq
            exact absurd hq.symm (by simp)
          | some p => exact ⟨p, rfl⟩
      have htr : (updateManateeRun (mkNoHAArg shard) env).1
          = canonTrace (mkNoHAArg shard) manateePreReset
            ++ (runSteps (mkNoHAArg shard) env
                 [.resetSapiToFullMode, .waitForShardHA]).1 := by
        rw [hnorm, manateeFuncs_eq_pre_reset,
          runSteps_append_ok _ _ _ _ hpre,
          runSteps_trace_of_ok _ _ _ hpre]
      have hcanon : canonTrace (mkNoHAArg shard) manateePreReset
          = [Effect.installImageLocal, Effect.lookupSapi,
             Effect.setProtoMode, Effect.restartSapiProto,
             Effect.reprovision p.server_uuid p.zoneId, Effect.sleep60,
             Effect.pgUp] := by
        rcases shard with ⟨pri, syn, asy⟩
        simp only at hpri
        subst hpri
        simp [canonTrace, manateePreReset, stepEffects, mkNoHAArg,
          peerEffects]
      rw [htr, hcanon]
      refine ⟨by simp, by simp, by simp, by simp, ⟨p, hpri, by simp⟩,
        by simp, by simp⟩
  · intro hok
    rw [hnorm] at hok
    have htr := runSteps_trace_of_ok (mkNoHAArg shard) env manateeFuncs hok
    rw [hnorm, htr]
    simp [canonTrace, manateeFuncs, stepEffects, mkNoHAArg, peerEffects]

/-- A no-HA shard: only the primary role. -/
def shardNoHA : ShardArg :=
  { primary := some primaryPeer, sync := none, async := none }

/-- Witness for C10: a fully successful no-HA run restores SAPI to full
mode. -/
theorem claim_c10_sapi_restore_only_after_success_witness :
    Effect.setModeFull ∈ (updateManateeRun (mkNoHAArg shardNoHA) envAllOk).1 :=
  (claim_c10_sapi_restore_only_after_success shardNoHA envAllOk).2 rfl

/-- The pipeline steps strictly before `disableSync`. -/
def manateeS1 : List MStep :=
  [.installPrimaryImage, .verifyFullHA, .disableAsync, .waitForAsyncDisabled,
   .installImageAsyncServer, .reprovisionAsync, .waitForAsync, .waitForHA]

/-- The pipeline steps strictly after `disableSync`. -/
def manateeAfterDisableSync : List MStep :=
  [.waitForSyncDisabled, .installImageSyncServer, .reprovisionSync,
   .waitForSync, .waitForHASync, .disablePrimaryManatee,
   .waitForShardPromotion, .getLocalSapi, .setSapiProtoMode,
   .restartSapiIntoProtoMode, .reprovisionPrimary, .waitForPrimaryInstance,
   .waitForPrimaryPG, .resetSapiToFullMode, .waitForShardHA]

theorem manateeFuncs_eq_S1 :
    manateeFuncs = manateeS1 ++ (.disableSync :: manateeAfterDisableSync) :=
  rfl

/-- The pipeline steps strictly before `disablePrimaryManatee`. -/
def manateeS1b : List MStep :=
  manateeS1 ++ [.disableSync, .waitForSyncDisabled, .installImageSyncServer,
    .reprovisionSync, .waitForSync, .waitForHASync]

/-- The pipeline steps strictly after `disablePrimaryManatee`. -/
def manateeAfterDisablePrimary : List MStep :=
  [.waitForShardPromotion, .getLocalSapi, .setSapiProtoMode,
   .restartSapiIntoProtoMode, .reprovisionPrimary, .waitForPrimaryInstance,
   .waitForPrimaryPG, .resetSapiToFullMode, .waitForShardHA]

theorem manateeFuncs_eq_S1b :
    manateeFuncs
      = manateeS1b ++ (.disablePrimaryManatee :: manateeAfterDisablePrimary) :=
  rfl

/-- The pipeline steps through `waitForShardPromotion`. -/
def manateeS1c : List MStep :=
  manateeS1b ++ [.disablePrimaryManatee, .waitForShardPromotion]

/-- The pipeline steps strictly after `reprovisionPrimary`. -/
def manateeTailAfterRP : List MStep :=
  [.waitForPrimaryInstance, .waitForPrimaryPG, .resetSapiToFullMode,
   .waitForShardHA]

theorem manateeFuncs_eq_S1c :
    manateeFuncs
      = manateeS1c ++ ([.getLocalSapi, .setSapiProtoMode,
          .restartSapiIntoProtoMode]
            ++ (.reprovisionPrimary :: manateeTailAfterRP)) :=
  rfl

/-- C2: in the HA branch the peers are acted on strictly async → sync →
primary. Whenever the sync peer is first touched (its disable command),
the trace already contains, in order, the async peer's disable, its
reprovision and a completed wait of the shard back to `async` mode;
whenever the primary is disabled, the trace already contains the sync
peer's disable, reprovision and a completed wait back to `async`; and the
primary is reprovisioned only after its disable and a completed promotion
poll of the former async peer (which, by `promotionLoop`, succeeds exactly
when the observed primary zone differs from the original primary's). -/
theorem claim_c2_ha_update_order (env : MEnv) (p sy a : PeerRec) (arg : MArg)
    (hHA : arg.HA = true)
    (hpri : arg.shard.primary = some p)
    (hsyn : arg.shard.sync = some sy)
    (hasy : arg.shard.async = some a)
    (hps : p.zoneId ≠ sy.zoneId) (hpa : p.zoneId ≠ a.zoneId)
    (hsa : sy.zoneId ≠ a.zoneId) :
    (Effect.disable sy.server_uuid sy.zoneId ∈ (updateManateeRun arg env).1 →
      [Effect.disable a.server_uuid a.zoneId,
       Effect.reprovision a.server_uuid a.zoneId,
       Effect.waited "async" p.server_uuid p.zoneId,
       Effect.disable sy.server_uuid sy.zoneId].Sublist
        (updateManateeRun arg env).1)
    ∧ (Effect.disable p.server_uuid p.zoneId ∈ (updateManateeRun arg env).1 →
      [Effect.disable sy.server_uuid sy.zoneId,
       Effect.reprovision sy.server_uuid sy.zoneId,
       Effect.waited "async" p.server_uuid p.zoneId,
       Effect.disable p.server_uuid p.zoneId].Sublist
        (updateManateeRun arg env).1)
    ∧ (Effect.reprovision p.server_uuid p.zoneId
        ∈ (updateManateeRun arg env).1 →
      [Effect.disable p.server_uuid p.zoneId,
       Effect.promoted a.server_uuid a.zoneId,
       Effect.reprovision p.server_uuid p.zoneId].Sublist
        (updateManateeRun arg env).1) := by
  have hil1 : stepEffects arg .installImageAsyncServer = []
      ∨ stepEffects arg .installImageAsyncServer
          = [.installImage a.server_uuid] := by
    simp only [stepEffects, hHA, hpri, hasy, peerEffects, Bool.not_true]
    split <;> simp <;> tauto
  have hil2 : stepEffects arg .installImageSyncServer = []
      ∨ stepEffects arg .installImageSyncServer
          = [.installImage sy.server_uuid] := by
    simp only [stepEffects, hHA, hpri, hsyn, hasy, peerEffects, Bool.not_true]
    split <;> simp <;> tauto
  have hcanS1 : canonTrace arg manateeS1
      = [.installImage p.server_uuid, .disable a.server_uuid a.zoneId,
         .waited "sync" p.server_uuid p.zoneId]
        ++ stepEffects arg .installImageAsyncServer
        ++ [.reprovision a.server_uuid a.zoneId, .sleep60,
            .waited "async" p.server_uuid p.zoneId] := by
    simp [canonTrace, manateeS1, stepEffects, hHA, hpri, hsyn, hasy,
      peerEffects]
  have hcanS1b : canonTrace arg manateeS1b
      = canonTrace arg manateeS1
        ++ ([.disable sy.server_uuid sy.zoneId,
             .waited "sync" p.server_uuid p.zoneId]
          ++ stepEffects arg .installImageSyncServer
          ++ [.reprovision sy.server_uuid sy.zoneId, .sleep60,
              .waited "async" p.server_uuid p.zoneId]) := by
    rw [manateeS1b, canonTrace_append]
    congr 1
    simp [canonTrace, stepEffects, hHA, hpri, hsyn, hasy, peerEffects]
  have hcanS1c : canonTrace arg manateeS1c
      = canonTrace arg manateeS1b
        ++ [.disable p.server_uuid p.zoneId,
            .promoted a.server_uuid a.zoneId] := by
    rw [manateeS1c, canonTrace_append]
    congr 1
    simp [canonTrace, stepEffects, hHA, hpri, hasy, peerEffects]
  have hnorm : updateManateeRun arg env = runSteps arg env manateeFuncs :=
    updateManateeRun_normal arg env (by simp [verifyCallsNextTwice, hsyn, hasy])
  refine ⟨?_, ?_, ?_⟩
  · -- async phase complete before the sync peer is touched
    intro hmem
    cases h1 : (runSteps arg env manateeS1).2 with
    | error e =>
      have hrun : updateManateeRun arg env = runSteps arg env manateeS1 := by
        rw [hnorm, manateeFuncs_eq_S1,
          runSteps_append_err _ _ _ _ e h1]
      rw [hrun] at hmem
      obtain ⟨rest, hcan⟩ := runSteps_trace_isPre arg env manateeS1
      have hm2 : Effect.disable sy.server_uuid sy.zoneId
          ∈ canonTrace arg manateeS1 := by
        rw [hcan]
        exact List.mem_append_left _ hmem
      rw [hcanS1] at hm2
      rcases hil1 with h | h <;> rw [h] at hm2 <;> simp [hsa] at hm2
    | ok u =>
      cases u
      have htr : (updateManateeRun arg env).1
          = canonTrace arg manateeS1
            ++ (runSteps arg env
                 (.disableSync :: manateeAfterDisableSync)).1 := by
        rw [hnorm, manateeFuncs_eq_S1,
          runSteps_append_ok _ _ _ _ h1, runSteps_trace_of_ok _ _ _ h1]
      have hq : execStep arg env .disableSync
          = ([.disable sy.server_uuid sy.zoneId],
             env.exec (.disable sy.server_uuid sy.zoneId)) := by
        simp [execStep, hHA, hsyn, withPeer, prim]
      obtain ⟨t2, ht2⟩ : ∃ t2,
          (runSteps arg env (.disableSync :: manateeAfterDisableSync)).1
            = .disable sy.server_uuid sy.zoneId :: t2 := by
        cases hr : env.exec (.disable sy.server_uuid sy.zoneId) with
        | ok u2 =>
          cases u2
          rw [runSteps_cons_ok _ _ _ _ _ _ (by rw [hq, hr])]
          exact ⟨_, rfl⟩
        | error e2 =>
          rw [runSteps_cons_err _ _ _ _ _ _ (by rw [hq, hr])]
          exact ⟨[], rfl⟩
      rw [htr, ht2, hcanS1]
      simp only [List.cons_append, List.nil_append, List.append_assoc]
      refine List.Sublist.cons _ (List.Sublist.cons₂ _
        (List.Sublist.cons _ ?_))
      refine List.Sublist.trans ?_
        (List.sublist_append_right (stepEffects arg .installImageAsyncServer) _)
      exact List.Sublist.cons₂ _ (List.Sublist.cons _ (List.Sublist.cons₂ _
        (List.Sublist.cons₂ _ (List.nil_sublist t2))))
  · -- sync phase complete before the primary is disabled
    intro hmem
    cases h1 : (runSteps arg env manateeS1b).2 with
    | error e =>
      have hrun : updateManateeRun arg env = runSteps arg env manateeS1b := by
        rw [hnorm, manateeFuncs_eq_S1b,
          runSteps_append_err _ _ _ _ e h1]
      rw [hrun] at hmem
      obtain ⟨rest, hcan⟩ := runSteps_trace_isPre arg env manateeS1b
      have hm2 : Effect.disable p.server_uuid p.zoneId
          ∈ canonTrace arg manateeS1b := by
        rw [hcan]
        exact List.mem_append_left _ hmem
      rw [hcanS1b, hcanS1] at hm2
      rcases hil1 with h | h <;> rcases hil2 with h' | h' <;>
        rw [h, h'] at hm2 <;> simp [hpa, hps] at hm2
    | ok u =>
      cases u
      have htr : (updateManateeRun arg env).1
          = canonTrace arg manateeS1b
            ++ (runSteps arg env
                 (.disablePrimaryManatee :: manateeAfterDisablePrimary)).1 := by
        rw [hnorm, manateeFuncs_eq_S1b,
          runSteps_append_ok _ _ _ _ h1, runSteps_trace_of_ok _ _ _ h1]
      have hq : execStep arg env .disablePrimaryManatee
          = ([.disable p.server_uuid p.zoneId],
             env.exec (.disable p.server_uuid p.zoneId)) := by
        simp [execStep, hHA, hpri, withPeer, prim]
      obtain ⟨t2, ht2⟩ : ∃ t2,
          (runSteps arg env
            (.disablePrimaryManatee :: manateeAfterDisablePrimary)).1
              = .disable p.server_uuid p.zoneId :: t2 := by
        cases hr : env.exec (.disable p.server_uuid p.zoneId) with
        | ok u2 =>
          cases u2
          rw [runSteps_cons_ok _ _ _ _ _ _ (by rw [hq, hr])]
          exact ⟨_, rfl⟩
        | error e2 =>
          rw [runSteps_cons_err _ _ _ _ _ _ (by rw [hq, hr])]
          exact ⟨[], rfl⟩
      rw [htr, ht2, hcanS1b, hcanS1]
      simp only [List.cons_append, List.nil_append, List.append_assoc]
      refine List.Sublist.cons _ (List.Sublist.cons _ (List.Sublist.cons _ ?_))
      refine List.Sublist.trans ?_
        (List.sublist_append_right (stepEffects arg .installImageAsyncServer) _)
      refine List.Sublist.cons _ (List.Sublist.cons _ (List.Sublist.cons _
        (List.Sublist.cons₂ _ (List.Sublist.cons _ ?_))))
      refine List.Sublist.trans ?_
        (List.sublist_append_right (stepEffects arg .installImageSyncServer) _)
      exact List.Sublist.cons₂ _ (List.Sublist.cons _ (List.Sublist.cons₂ _
        (List.Sublist.cons₂ _ (List.nil_sublist t2))))
  · -- primary reprovisioned only after its disable and the promotion poll
    intro hmem
    cases h1 : (runSteps arg env manateeS1c).2 with
    | error e =>
      have hrun : updateManateeRun arg env = runSteps arg env manateeS1c := by
        rw [hnorm, manateeFuncs_eq_S1c,
          runSteps_append_err _ _ _ _ e h1]
      rw [hrun] at hmem
      obtain ⟨rest, hcan⟩ := runSteps_trace_isPre arg env manateeS1c
      have hm2 : Effect.reprovision p.server_uuid p.zoneId
          ∈ canonTrace arg manateeS1c := by
        rw [hcan]
        exact List.mem_append_left _ hmem
      rw [hcanS1c, hcanS1b, hcanS1] at hm2
      rcases hil1 with h | h <;> rcases hil2 with h' | h' <;>
        rw [h, h'] at hm2 <;> simp [hpa, hps] at hm2
    | ok u =>
      cases u
      have htr : (updateManateeRun arg env).1
          = canonTrace arg manateeS1c
            ++ (runSteps arg env
                 ([.getLocalSapi, .setSapiProtoMode, .restartSapiIntoProtoMode]
                   ++ (.reprovisionPrimary :: manateeTailAfterRP))).1 := by
        rw [hnorm, manateeFuncs_eq_S1c,
          runSteps_append_ok _ _ _ _ h1, runSteps_trace_of_ok _ _ _ h1]
      have hg1 : execStep arg env .getLocalSapi = ([], .ok ()) := by
        simp [execStep, hHA, skipStep]
      have hg2 : execStep arg env .setSapiProtoMode = ([], .ok ()) := by
        simp [execStep, hHA, skipStep]
      have hg3 : execStep arg env .restartSapiIntoProtoMode = ([], .ok ()) := by
        simp [execStep, hHA, skipStep]
      have hq : execStep arg env .reprovisionPrimary
          = ([.reprovision p.server_uuid p.zoneId],
             env.exec (.reprovision p.server_uuid p.zoneId)) := by
        simp [execStep, hpri, withPeer, prim]
      obtain ⟨t2, ht2⟩ : ∃ t2,
          (runSteps arg env
            ([.getLocalSapi, .setSapiProtoMode, .restartSapiIntoProtoMode]
              ++ (.reprovisionPrimary :: manateeTailAfterRP))).1
            = .reprovision p.server_uuid p.zoneId :: t2 := by
        have hskip : runSteps arg env
            ([.getLocalSapi, .setSapiProtoMode, .restartSapiIntoProtoMode]
              ++ (.reprovisionPrimary :: manateeTailAfterRP))
            = runSteps arg env
                (.reprovisionPrimary :: manateeTailAfterRP) := by
          rw [show ([MStep.getLocalSapi, .setSapiProtoMode,
                .restartSapiIntoProtoMode]
                ++ (MStep.reprovisionPrimary :: manateeTailAfterRP))
              = .getLocalSapi :: (.setSapiProtoMode ::
                  (.restartSapiIntoProtoMode ::
                    (.reprovisionPrimary :: manateeTailAfterRP))) from rfl,
            runSteps_cons_ok _ _ _ _ _ _ hg1,
            runSteps_cons_ok _ _ _ _ _ _ hg2,
            runSteps_cons_ok _ _ _ _ _ _ hg3]
          simp
        rw [hskip]
        cases hr : env.exec (.reprovision p.server_uuid p.zoneId) with
        | ok u2 =>
          cases u2
          rw [runSteps_cons_ok _ _ _ _ _ _ (by rw [hq, hr])]
          exact ⟨_, rfl⟩
        | error e2 =>
          rw [runSteps_cons_err _ _ _ _ _ _ (by rw [hq, hr])]
          exact ⟨[], rfl⟩
      rw [htr, ht2, hcanS1c, hcanS1b, hcanS1]
      simp only [List.cons_append, List.nil_append, List.append_assoc]
      refine List.Sublist.cons _ (List.Sublist.cons _ (List.Sublist.cons _ ?_))
      refine List.Sublist.trans ?_
        (List.sublist_append_right (stepEffects arg .installImageAsyncServer) _)
      refine List.Sublist.cons _ (List.Sublist.cons _ (List.Sublist.cons _
        (List.Sublist.cons _ (List.Sublist.cons _ ?_))))
      refine List.Sublist.trans ?_
        (List.sublist_append_right (stepEffects arg .installImageSyncServer) _)
      refine List.Sublist.cons _ (List.Sublist.cons _ (List.Sublist.cons _ ?_))
      exact List.Sublist.cons₂ _ (List.Sublist.cons₂ _ (List.Sublist.cons₂ _
        (List.nil_sublist t2)))

/-- Witness for C2: on a successful HA run over three distinct peers, the
primary's reprovision is preceded in the trace by its disable and the
promotion poll of the former async peer. -/
theorem claim_c2_ha_update_order_witness :
    [Effect.disable primaryPeer.server_uuid primaryPeer.zoneId,
     Effect.promoted asyncPeer.server_uuid asyncPeer.zoneId,
     Effect.reprovision primaryPeer.server_uuid primaryPeer.zoneId].Sublist
      (updateManateeRun
        (mkHAArg (some primaryPeer) (some syncPeer) (some asyncPeer))
        envC2).1 :=
  (claim_c2_ha_update_order envC2 primaryPeer syncPeer asyncPeer
      (mkHAArg (some primaryPeer) (some syncPeer) (some asyncPeer))
      rfl rfl rfl rfl (by decide) (by decide) (by decide)).2.2
    (by decide)

end Sdcadm
